import Mathlib

/-!
Verification of the `ralph-wiggum-loop` (rwl) iteration control loop.

The Rust sources are shallowly embedded: strings are `List Char`, subprocess
invocations and the file system are an explicit per-iteration environment
(`IterEnv`), and `Result<T>` values become `Except RunError T`.  Definitions
follow the corresponding functions in `src/runner.rs`, `src/progress.rs`,
`src/validation.rs`, `src/config.rs` and `src/git.rs`.
-/

namespace RWL

/-! ### Substring machinery (Rust `str::matches`, `str::contains`, `str::replace`) -/

/-- Auxiliary scanner for `countOcc`.  `skip` is the number of characters still
covered by the previous match (Rust `matches` resumes the scan after the end of
a match, i.e. matches are counted left-to-right and non-overlapping). -/
def countOccAux (pat : List Char) : Nat → List Char → Nat
  | _, [] => 0
  | k + 1, _ :: rest => countOccAux pat k rest
  | 0, c :: rest =>
      if pat.isPrefixOf (c :: rest) then 1 + countOccAux pat (pat.length - 1) rest
      else countOccAux pat 0 rest

/-- Number of non-overlapping occurrences of `pat` in `s`, scanned left to
right: the model of Rust `s.matches(pat).count()` (for a non-empty pattern). -/
def countOcc (pat s : List Char) : Nat := countOccAux pat 0 s

/-- Model of Rust `str::contains` (substring search). -/
def hasSubstr (pat : List Char) : List Char → Bool
  | [] => pat.isEmpty
  | c :: rest => pat.isPrefixOf (c :: rest) || hasSubstr pat rest

/-- Fuel-indexed auxiliary for `replaceAll`. -/
def replaceAllAux (pat rep : List Char) : Nat → List Char → List Char
  | _, [] => []
  | 0, s => s
  | f + 1, c :: rest =>
      if pat.isPrefixOf (c :: rest) then rep ++ replaceAllAux pat rep f ((c :: rest).drop pat.length)
      else c :: replaceAllAux pat rep f rest

/-- Model of Rust `str::replace` (all non-overlapping occurrences, left to
right; only ever used with a non-empty pattern). -/
def replaceAll (pat rep s : List Char) : List Char := replaceAllAux pat rep s.length s

/-- Model of Rust `str::trim` (drop leading and trailing whitespace). -/
def trimChars (s : List Char) : List Char :=
  ((s.dropWhile Char.isWhitespace).reverse.dropWhile Char.isWhitespace).reverse

/-- Fuel-indexed auxiliary for `trimStartMatches`. -/
def trimStartMatchesAux (pat : List Char) : Nat → List Char → List Char
  | 0, s => s
  | f + 1, s =>
      if !pat.isEmpty && pat.isPrefixOf s then trimStartMatchesAux pat f (s.drop pat.length)
      else s

/-- Model of Rust `str::trim_start_matches` (repeatedly strip the pattern from
the front). -/
def trimStartMatches (pat s : List Char) : List Char :=
  trimStartMatchesAux pat (s.length + 1) s

/-- Model of Rust `str::trim_end_matches`, via reversal. -/
def trimEndMatches (pat s : List Char) : List Char :=
  (trimStartMatches pat.reverse s.reverse).reverse

/-! ### Decimal rendering of iteration numbers (Rust `u32` `Display`) -/

/-- The decimal digit character for `d` (`d` is always reduced mod 10 by the
callers). -/
def digitChar (d : Nat) : Char :=
  match d with
  | 0 => '0' | 1 => '1' | 2 => '2' | 3 => '3' | 4 => '4'
  | 5 => '5' | 6 => '6' | 7 => '7' | 8 => '8' | _ => '9'

/-- Fuel-indexed accumulator loop producing the decimal digits of `n`. -/
def natToCharsAux : Nat → Nat → List Char → List Char
  | 0, _, acc => acc
  | f + 1, n, acc =>
      if n < 10 then digitChar n :: acc
      else natToCharsAux f (n / 10) (digitChar (n % 10) :: acc)

/-- Decimal rendering of a natural number, as Rust's `Display` for `u32`. -/
def natToChars (n : Nat) : List Char := natToCharsAux (n + 1) n []

/-! ### Timestamps (chrono `format("%Y-%m-%d %H:%M:%S UTC")`) -/

/-- A UTC wall-clock instant as the loop observes it (`chrono::Utc::now()`). -/
structure DateTimeU where
  year : Nat
  month : Nat
  day : Nat
  hour : Nat
  minute : Nat
  second : Nat
deriving DecidableEq, Repr

/-- Zero-pad a decimal rendering to width 2 (chrono `%m`, `%d`, `%H`, `%M`, `%S`). -/
def pad2 (n : Nat) : List Char :=
  List.replicate (2 - (natToChars n).length) '0' ++ natToChars n

/-- Zero-pad a decimal rendering to width 4 (chrono `%Y`). -/
def pad4 (n : Nat) : List Char :=
  List.replicate (4 - (natToChars n).length) '0' ++ natToChars n

/-- The timestamp text `format("%Y-%m-%d %H:%M:%S UTC")` used in the progress
store header and in every iteration record. -/
def formatTimestamp (t : DateTimeU) : List Char :=
  pad4 t.year ++ '-' :: pad2 t.month ++ '-' :: pad2 t.day ++ ' ' :: pad2 t.hour
    ++ ':' :: pad2 t.minute ++ ':' :: pad2 t.second ++ " UTC".toList

/-! ### Configuration (`src/config.rs`) -/

/-- Model of `LoopConfig` from `config.rs` (the `loop:` section). -/
structure LoopConfig where
  max_iterations : Nat
  iteration_timeout_minutes : Nat
  sleep_between_secs : Nat
  completion_signal : List Char
deriving DecidableEq, Repr

/-- Model of `ValidationConfig` from `config.rs`. -/
structure ValidationConfig where
  command : List Char
deriving DecidableEq, Repr

/-- Model of `QualityGate` from `config.rs`: a name plus two optional fields, of which
exactly one is supposed to be present. -/
structure QualityGate where
  name : List Char
  command : Option (List Char)
  script : Option (List Char)
deriving DecidableEq, Repr

/-- Model of `LlmConfig` from `config.rs`. -/
structure LlmConfig where
  model : List Char
  dangerously_skip_permissions : Bool
deriving DecidableEq, Repr

/-- Model of `GitConfig` from `config.rs`. -/
structure GitConfig where
  auto_commit : Bool
  commit_message_template : List Char
deriving DecidableEq, Repr

/-- The main `Config` struct from `config.rs`. -/
structure Config where
  loop_config : LoopConfig
  validation : ValidationConfig
  quality_gates : List QualityGate
  llm : LlmConfig
  git : GitConfig
deriving DecidableEq, Repr

/-- The `Default` instance for `Config` from `config.rs`. -/
def defaultConfig : Config :=
  { loop_config :=
      { max_iterations := 100
        iteration_timeout_minutes := 10
        sleep_between_secs := 2
        completion_signal := "<promise>COMPLETE</promise>".toList }
    validation := { command := "otto ci".toList }
    quality_gates :=
      [ { name := "no_dead_code".toList
          command := some "! grep -rn \x27allow(dead_code)\x27 src/".toList
          script := none }
      , { name := "no_todos".toList
          command := some "! grep -rn \x27TODO\x27 src/".toList
          script := none } ]
    llm := { model := "opus".toList, dangerously_skip_permissions := true }
    git := { auto_commit := true, commit_message_template := "rwl: iteration {iteration}".toList } }

/-- Every error that the embedded runner can propagate through `?` (the model
of the `eyre::Report` values produced in `runner.rs`, `git.rs`,
`validation.rs`, `progress.rs` and `config.rs`). -/
inductive RunError where
  | configLoadFailed
  | gitStatusSpawnFailed
  | gitStatusFailed (stderr : List Char)
  | gitAddSpawnFailed
  | gitAddFailed (stderr : List Char)
  | gitCommitSpawnFailed
  | gitCommitFailed (stderr : List Char)
  | validationSpawnFailed (command : List Char)
  | gateBothCommandAndScript (name : List Char)
  | gateNeitherCommandNorScript (name : List Char)
  | gateSpawnFailed (command : List Char)
  | progressWriteFailed
deriving DecidableEq, Repr

/-- Model of `QualityGate::get_command` from `config.rs`: resolve a gate to the command
string to execute through the shell. -/
def QualityGate.get_command (g : QualityGate) : Except RunError (List Char) :=
  match g.command, g.script with
  | some cmd, none => .ok cmd
  | none, some s => .ok ("bash ".toList ++ s)
  | some _, some _ => .error (.gateBothCommandAndScript g.name)
  | none, none => .error (.gateNeitherCommandNorScript g.name)

/-! ### Progress store (`src/progress.rs`) -/

/-- Model of `IterationResult` from `progress.rs`. -/
structure IterationResult where
  iteration : Nat
  validation_passed : Bool
  promise_found : Bool
  summary : List Char
deriving DecidableEq, Repr

/-- The record marker counted by `ProgressTracker::iteration_count` and
`ProgressTracker::read` (`content.matches("## Iteration").count()`). -/
def patIteration : List Char := "## Iteration".toList

/-- The entry text appended by `ProgressTracker::log_iteration` for one
iteration record, with the wall clock passed explicitly. -/
def logEntry (r : IterationResult) (now : DateTimeU) : List Char :=
  "## Iteration ".toList ++ natToChars r.iteration
    ++ "\nTimestamp: ".toList ++ formatTimestamp now
    ++ "\nValidation: ".toList ++ (if r.validation_passed then "PASSED" else "FAILED").toList
    ++ "\nPromise: ".toList ++ (if r.promise_found then "FOUND" else "NOT FOUND").toList
    ++ "\nSummary: ".toList ++ r.summary
    ++ "\n\n".toList

/-- The store is its file content; `none` models a missing `progress.txt`. -/
abbrev Store := Option (List Char)

/-- Model of `ProgressTracker::log_iteration`: append one entry, creating the file if it
does not exist (`OpenOptions::new().create(true).append(true)`). -/
def log_iteration (store : Store) (r : IterationResult) (now : DateTimeU) : Store :=
  some (store.getD [] ++ logEntry r now)

/-- Model of `ProgressTracker::iteration_count`: 0 for a missing file, otherwise the
number of `"## Iteration"` markers in the content. -/
def iteration_count (store : Store) : Nat :=
  match store with
  | none => 0
  | some content => countOcc patIteration content

/-- Model of `ProgressTracker::init`: write the header (creation time, plan reference). -/
def initHeader (now : DateTimeU) (plan : List Char) : List Char :=
  "# RWL Progress Log\n# Started: ".toList ++ formatTimestamp now
    ++ "\n# Plan: ".toList ++ plan
    ++ "\n# ----------------------------------------\n\n".toList

/-- Model of `Progress` from `progress.rs`.  The `iterations` vector is declared in the
Rust struct but never populated by `read`. -/
structure Progress where
  started : Option DateTimeU
  plan_path : Option (List Char)
  iterations : List IterationResult
  last_status : Option (List Char)
deriving DecidableEq, Repr

/-- Model of Rust `str::lines`: accumulate the current line (reversed). -/
def linesAux (cur : List Char) : List Char → List (List Char)
  | [] => [cur.reverse]
  | '\n' :: rest => cur.reverse :: linesAux [] rest
  | c :: rest => linesAux (c :: cur) rest

/-- Strip one trailing carriage return (Rust `str::lines` treats `\r\n` as a
line terminator). -/
def stripCr (line : List Char) : List Char :=
  match line.reverse with
  | '\r' :: rest => rest.reverse
  | _ => line

/-- Model of Rust `str::lines`. -/
def rustLines (s : List Char) : List (List Char) :=
  match s with
  | [] => []
  | _ =>
    let ls := linesAux [] s
    (if s.getLast? = some '\n' then ls.dropLast else ls).map stripCr

/-- Model of `ProgressTracker::read`: a missing file yields the empty `Progress`;
otherwise the header lines are parsed tolerantly and the iteration count is
derived by counting record markers.  `parseDT` abstracts
`chrono::DateTime::parse_from_str` on the date string (the code appends a UTC
offset before parsing); a parse failure yields `none`. -/
def readProgress (parseDT : List Char → Option DateTimeU) (store : Store) : Progress :=
  match store with
  | none => { started := none, plan_path := none, iterations := [], last_status := none }
  | some content =>
    let base : Progress := { started := none, plan_path := none, iterations := [], last_status := none }
    let withHeader := (rustLines content).foldl
      (fun pr line =>
        if ("# Started:".toList).isPrefixOf line then
          { pr with started :=
              parseDT (trimEndMatches " UTC".toList (trimChars (trimStartMatches "# Started:".toList line))) }
        else if ("# Plan:".toList).isPrefixOf line then
          { pr with plan_path := some (trimChars (trimStartMatches "# Plan:".toList line)) }
        else pr)
      base
    let n := countOcc patIteration content
    if 0 < n then
      { withHeader with last_status := some (natToChars n ++ " iterations completed".toList) }
    else withHeader

/-! ### Validation and quality gates (`src/validation.rs`) -/

/-- The observable outcome of one finished subprocess: captured streams, the
success flag of its exit status, and the exit code (`-1` when none). -/
structure ProcOutput where
  stdout : List Char
  stderr : List Char
  success : Bool
  code : Int
deriving DecidableEq, Repr

/-- Model of `ValidationResult` from `validation.rs`. -/
structure ValidationResult where
  passed : Bool
  output : List Char
  exit_code : Int
deriving DecidableEq, Repr

/-- Model of `QualityGateResult` from `validation.rs`: the aggregate flag plus the
per-gate `(name, passed, output)` triples. -/
structure QualityGateResult where
  all_passed : Bool
  results : List (List Char × Bool × List Char)
deriving DecidableEq, Repr

/-- Model of `ValidationRunner::run_validation`: run the command through `sh -c`;
`proc = none` models a failure to spawn the shell (propagated), otherwise
`passed` is the exit-status success flag. -/
def run_validation (proc : Option ProcOutput) (command : List Char) : Except RunError ValidationResult :=
  match proc with
  | none => .error (.validationSpawnFailed command)
  | some o => .ok { passed := o.success, output := o.stdout ++ '\n' :: o.stderr, exit_code := o.code }

/-- Model of `ValidationRunner::run_gate_command`: identical shape, distinct error. -/
def run_gate_command (proc : Option ProcOutput) (command : List Char) : Except RunError ValidationResult :=
  match proc with
  | none => .error (.gateSpawnFailed command)
  | some o => .ok { passed := o.success, output := o.stdout ++ '\n' :: o.stderr, exit_code := o.code }

/-- The loop body of `ValidationRunner::run_quality_gates`: `i` indexes into
the per-gate process environment, `all_passed` and `results` are the mutable
accumulators of the Rust loop. -/
def run_quality_gates_go (proc : Nat → Option ProcOutput) :
    Nat → List QualityGate → Bool → List (List Char × Bool × List Char) →
    Except RunError QualityGateResult
  | _, [], all_passed, results => .ok { all_passed := all_passed, results := results }
  | i, g :: rest, all_passed, results =>
    match g.get_command with
    | .error e => .error e
    | .ok command =>
      match run_gate_command (proc i) command with
      | .error e => .error e
      | .ok r =>
        run_quality_gates_go proc (i + 1) rest
          (if r.passed then all_passed else false)
          (results ++ [(g.name, r.passed, r.output)])

/-- Model of `ValidationRunner::run_quality_gates`: every gate is resolved and executed
in declared order; a resolution or spawn error is propagated. -/
def run_quality_gates (proc : Nat → Option ProcOutput) (gates : List QualityGate) :
    Except RunError QualityGateResult :=
  run_quality_gates_go proc 0 gates true []

/-! ### Git (`src/git.rs`) -/

/-- The git-related effects available to one iteration: whether the directory
is a repository, and the outcomes of `git status --porcelain`, `git add -A`
and `git commit -m` (`none` models a spawn failure). -/
structure GitEnv where
  is_repo : Bool
  status : Option ProcOutput
  add : Option ProcOutput
  commit : Option ProcOutput
deriving DecidableEq, Repr

/-- Model of `GitManager::has_changes`: errors on a spawn failure or a non-zero
`git status`, otherwise reports whether the porcelain output is non-blank. -/
def has_changes (g : GitEnv) : Except RunError Bool :=
  match g.status with
  | none => .error .gitStatusSpawnFailed
  | some o =>
    if o.success then .ok (!(trimChars o.stdout).isEmpty)
    else .error (.gitStatusFailed o.stderr)

/-- Model of `GitManager::auto_commit`: stage everything, then commit; a commit whose
stderr contains `"nothing to commit"` is treated as success, every other
failure is an error. -/
def git_auto_commit (g : GitEnv) (_message : List Char) : Except RunError Unit :=
  match g.add with
  | none => .error .gitAddSpawnFailed
  | some a =>
    if a.success then
      match g.commit with
      | none => .error .gitCommitSpawnFailed
      | some c =>
        if c.success then .ok ()
        else if hasSubstr "nothing to commit".toList c.stderr then .ok ()
        else .error (.gitCommitFailed c.stderr)
    else .error (.gitAddFailed a.stderr)

/-- Model of `LoopRunner::git_auto_commit`: skip silently outside a repository or with a
clean tree, otherwise commit with the message template's `{iteration}` token
substituted. -/
def runner_git_auto_commit (g : GitEnv) (iteration : Nat) (config : Config) : Except RunError Unit :=
  if !g.is_repo then .ok ()
  else
    match has_changes g with
    | .error e => .error e
    | .ok changed =>
      if !changed then .ok ()
      else
        git_auto_commit g
          (replaceAll "{iteration}".toList (natToChars iteration) config.git.commit_message_template)

/-! ### Loop runner (`src/runner.rs`) -/

/-- Model of `LoopOutcome` from `runner.rs`. -/
inductive LoopOutcome where
  | complete (iterations : Nat)
  | maxIterations (iterations : Nat)
  | stopped (iterations : Nat) (reason : List Char)
  | error (iterations : Nat) (errMsg : List Char)
deriving DecidableEq, Repr

/-- Model of `PROMPT_TEMPLATE` (from `src/templates/prompt.rs`) up to the
`completion_signal` placeholder. -/
def promptTemplateA : List Char :=
  ("# Ralph Wiggum Loop - ONE TASK THEN EXIT\n\nYou are in a Ralph Wiggum loop. You have NO MEMORY of previous runs.\nYour state persists ONLY in `.rwl/progress.txt`.\n\n## CRITICAL RULES\n\n1. **READ .rwl/progress.txt FIRST** - It tells you what was done\n2. **DO ONE SMALL THING** - Not a phase. One file, one fix, one test.\n3. **EXIT IMMEDIATELY** - Do not retry errors. Just exit.\n\nThe loop will restart you with fresh context. That\x27s the whole point.\nValidation runs EXTERNALLY - you do NOT run tests or validation.\n\n---\n\n## Your Workflow\n\n1. Read state: `cat .rwl/progress.txt && git log --oneline -10`\n2. Do ONE small task\n3. Record what you did in progress.txt\n4. If ALL work is complete, signal: `").toList

/-- Model of `PROMPT_TEMPLATE` between the `completion_signal` and `plan_path`
placeholders. -/
def promptTemplateB : List Char :=
  ("`\n5. EXIT - do nothing else\n\n---\n\n## Implementation Plan\n\nRead `").toList

/-- Model of `PROMPT_TEMPLATE` after the `plan_path` placeholder. -/
def promptTemplateC : List Char :=
  ("` for what to build.\nEach phase lists files and validation criteria.\n\n## Now: Read progress.txt and do ONE thing\n").toList

/-- Model of `LoopRunner::build_prompt`: the handlebars render of `PROMPT_TEMPLATE`
with the current completion signal and the plan path substituted. -/
def build_prompt (config : Config) (plan : List Char) : List Char :=
  promptTemplateA ++ config.loop_config.completion_signal ++ promptTemplateB ++ plan ++ promptTemplateC

/-- What the agent subprocess produced when it could be spawned at all:
captured streams plus the exit-status success flag. -/
structure AgentOutput where
  stdout : List Char
  stderr : List Char
  success : Bool
deriving DecidableEq, Repr

/-- The argument vector passed to the `claude` binary by
`LoopRunner::run_claude`.  `iteration_timeout_minutes` is read into an unused
local (`_timeout_secs`) in the Rust code and never reaches the command. -/
def claude_args (config : Config) (prompt : List Char) : List (List Char) :=
  ["--print".toList, "--model".toList, config.llm.model, "--max-turns".toList, "1".toList]
    ++ (if config.llm.dangerously_skip_permissions then ["--dangerously-skip-permissions".toList] else [])
    ++ [prompt]

/-- Model of `LoopRunner::run_claude`: a spawn failure (missing binary or failed
`Command::output`) is an error carrying its message; otherwise the combined
`format!("{}\n{}", stdout, stderr)` text is returned, whatever the exit
status was. -/
def run_claude (agent : Except (List Char) AgentOutput) : Except (List Char) (List Char) :=
  match agent with
  | .error msg => .error msg
  | .ok o => .ok (o.stdout ++ '\n' :: o.stderr)

/-- One observable external action of the loop, used to state which iterations
actually invoked the agent and with which arguments. -/
inductive Event where
  | agentCall (iteration : Nat) (args : List (List Char))
deriving DecidableEq, Repr

/-- The state the loop threads between iterations: the current in-memory
config (`let mut config`), the progress store file, and the trace of agent
invocations so far. -/
structure RunState where
  config : Config
  store : Store
  trace : List Event
deriving DecidableEq, Repr

/-- Everything the outside world feeds one iteration: the config-reload
result (`none` models a failed reload, which falls back to the previous
snapshot), the agent spawn outcome, the git effects, the validation and
per-gate subprocess outcomes, whether appending to the progress file succeeds,
and the wall clock. -/
structure IterEnv where
  reload : Option Config
  agent : Except (List Char) AgentOutput
  git : GitEnv
  validationProc : Option ProcOutput
  gateProc : Nat → Option ProcOutput
  appendOk : Bool
  now : DateTimeU

/-- The result of one iteration of the Rust `for` loop: fall through to the
next iteration, return a `LoopOutcome` (the `return Ok(...)` paths), or
propagate an error (the `?` paths). -/
inductive StepResult where
  | next (s : RunState)
  | finished (s : RunState) (outcome : LoopOutcome)
  | failed (s : RunState) (e : RunError)
deriving Repr

/-- The state carried by a `StepResult`, whichever way the iteration ended. -/
def StepResult.state : StepResult → RunState
  | .next s => s
  | .finished s _ => s
  | .failed s _ => s

/-- The summary string derived in step 7 of `LoopRunner::run`. -/
def deriveSummary (validation_passed promise_found : Bool) : List Char :=
  if validation_passed && promise_found then "Complete".toList
  else if validation_passed then "Validation passed, waiting for completion".toList
  else "Validation failed".toList

/-- Steps 4-9 of one iteration of `LoopRunner::run`, after the agent call
succeeded: auto-commit, validation, promise detection, record append, and the
conditional quality-gate evaluation. -/
def finishIteration (n : Nat) (env : IterEnv) (config : Config) (output : List Char)
    (s1 : RunState) : StepResult :=
  match (if config.git.auto_commit then runner_git_auto_commit env.git n config else .ok ()) with
  | .error e => .failed s1 e
  | .ok _ =>
    match run_validation env.validationProc config.validation.command with
    | .error e => .failed s1 e
    | .ok vres =>
      let validation_passed := vres.passed
      let promise_found := hasSubstr config.loop_config.completion_signal output
      let result : IterationResult :=
        { iteration := n, validation_passed := validation_passed, promise_found := promise_found
          summary := deriveSummary validation_passed promise_found }
      if env.appendOk then
        let s2 : RunState := { s1 with store := log_iteration s1.store result env.now }
        if validation_passed && promise_found then
          match run_quality_gates env.gateProc config.quality_gates with
          | .error e => .failed s2 e
          | .ok gate_result =>
            if gate_result.all_passed then .finished s2 (.complete n) else .next s2
        else .next s2
      else .failed s1 .progressWriteFailed

/-- One iteration of the `for iteration in start..=max` loop in
`LoopRunner::run`: reload the config (falling back on failure), build the
prompt, invoke the agent (a spawn failure ends the run with
`Error { iterations: n - 1 }` and no record), then hand over to
`finishIteration`. -/
def run_iteration (plan : List Char) (n : Nat) (env : IterEnv) (s : RunState) : StepResult :=
  let config := env.reload.getD s.config
  let prompt := build_prompt config plan
  match run_claude env.agent with
  | .error msg =>
    .finished { config := config, store := s.store, trace := s.trace } (.error (n - 1) msg)
  | .ok output =>
    finishIteration n env config output
      { config := config, store := s.store
        trace := s.trace ++ [.agentCall n (claude_args config prompt)] }

/-- The `for` loop of `LoopRunner::run`.  The Rust range `start..=m0` is
evaluated once, from the initial config, so the loop runs for
`m0 + 1 - start` iterations; `fuel` counts the iterations still to run and
`n` is the current iteration number.  When the range is exhausted the
`MaxIterations` outcome reports the max_iterations of the config currently in
memory (which later reloads may have changed). -/
def run_loop (plan : List Char) (envs : Nat → IterEnv) :
    Nat → Nat → RunState → RunState × Except RunError LoopOutcome
  | 0, _, s => (s, .ok (.maxIterations s.config.loop_config.max_iterations))
  | fuel + 1, n, s =>
    match run_iteration plan n (envs n) s with
    | .next s2 => run_loop plan envs fuel (n + 1) s2
    | .finished s2 outcome => (s2, .ok outcome)
    | .failed s2 e => (s2, .error e)

/-- Model of `LoopRunner::run`: load the initial config (an `Err` here aborts before
the loop), derive the starting iteration from the progress store record count,
and run the loop from there up to the initial config's `max_iterations`. -/
def run (plan : List Char) (initConfig : Option Config) (store0 : Store) (envs : Nat → IterEnv) :
    RunState × Except RunError LoopOutcome :=
  match initConfig with
  | none => ({ config := defaultConfig, store := store0, trace := [] }, .error .configLoadFailed)
  | some config =>
    let start := iteration_count store0 + 1
    run_loop plan envs (config.loop_config.max_iterations + 1 - start) start
      { config := config, store := store0, trace := [] }

/-! ### Derived definitions used by the statements and proofs -/

/-- The part of a `logEntry` between the leading marker and the summary: the
iteration number, timestamp, validation and promise lines.  None of its
characters is `'#'`. -/
def midChunk (r : IterationResult) (t : DateTimeU) : List Char :=
  ' ' :: (natToChars r.iteration ++ "\nTimestamp: ".toList ++ formatTimestamp t
    ++ "\nValidation: ".toList ++ (if r.validation_passed then "PASSED" else "FAILED").toList
    ++ "\nPromise: ".toList ++ (if r.promise_found then "FOUND" else "NOT FOUND").toList
    ++ "\nSummary: ".toList)

/-- The concatenation of a sequence of appended record entries. -/
def recordsText : List (IterationResult × DateTimeU) → List Char
  | [] => []
  | (r, t) :: rest => logEntry r t ++ recordsText rest

/-- The git infrastructure of an iteration works: the directory is no
repository, or `git status` succeeds and either nothing changed or staging
and committing succeed (a "nothing to commit" stderr counting as success).
Exit *statuses* of the agent, validation and gates are deliberately left
unconstrained. -/
def GitEnvOk (g : GitEnv) : Prop :=
  g.is_repo = false ∨
    ∃ st, g.status = some st ∧ st.success = true ∧
      ((trimChars st.stdout).isEmpty = true ∨
        ∃ ad, g.add = some ad ∧ ad.success = true ∧
          ∃ cm, g.commit = some cm ∧
            (cm.success = true ∨ hasSubstr "nothing to commit".toList cm.stderr = true))

/-- Every configured gate carries exactly one of command and script. -/
def WellFormedGates (c : Config) : Prop :=
  ∀ g ∈ c.quality_gates, (∃ cmd, g.command = some cmd ∧ g.script = none) ∨
    (∃ p, g.command = none ∧ g.script = some p)

/-- Everything an iteration needs from the outside world to avoid a propagated
error: working git infrastructure, a spawnable validation shell, spawnable
gate shells, and a writable progress file.  The agent may still fail to spawn
(that path returns an outcome rather than an error). -/
def IterEnvOk (env : IterEnv) : Prop :=
  GitEnvOk env.git ∧ (∃ v, env.validationProc = some v) ∧
    (∀ j, ∃ p, env.gateProc j = some p) ∧ env.appendOk = true

/-- Replace only the `iteration_timeout_minutes` field of a configuration. -/
def setTimeout (c : Config) (t : Nat) : Config :=
  { c with loop_config := { c.loop_config with iteration_timeout_minutes := t } }

/-- Two configurations differ at most in `iteration_timeout_minutes` exactly
when one arises from the other by `setTimeout`. -/
def RunState.mapTimeout (u : Nat) (s : RunState) : RunState :=
  { s with config := setTimeout s.config u }

def StepResult.mapTimeout (u : Nat) : StepResult → StepResult
  | .next s => .next (s.mapTimeout u)
  | .finished s o => .finished (s.mapTimeout u) o
  | .failed s e => .failed (s.mapTimeout u) e

/-- The environment family whose per-iteration config reloads differ from
`envs` only in `iteration_timeout_minutes`. -/
def mapEnvsTimeout (envs : Nat → IterEnv) (tf : Nat → Nat) : Nat → IterEnv :=
  fun m => { envs m with reload := ((envs m).reload).map (fun c => setTimeout c (tf m)) }

/-- A timestamp used by concrete scenarios. -/
def nowW : DateTimeU := ⟨2026, 1, 2, 3, 4, 5⟩

/-- A successful agent run whose output does not contain the completion
signal. -/
def agentOutW : AgentOutput := { stdout := "did one thing".toList, stderr := [], success := true }

/-- A small configuration: three iterations, no quality gates, defaults
otherwise. -/
def cfgW : Config :=
  { defaultConfig with
    loop_config := { defaultConfig.loop_config with max_iterations := 3 }
    quality_gates := [] }

/-- An iteration environment with working infrastructure outside a git
repository, whose validation command exits non-zero and whose agent exits
non-zero: nothing in it may abort the run. -/
def envW : IterEnv :=
  { reload := none
    agent := .ok { stdout := [], stderr := "error: build failed".toList, success := false }
    git := { is_repo := false, status := none, add := none, commit := none }
    validationProc := some { stdout := [], stderr := [], success := false, code := 1 }
    gateProc := fun _ => some { stdout := [], stderr := [], success := true, code := 0 }
    appendOk := true
    now := nowW }

/-- An iteration environment in a dirty git repository whose `git commit`
exits non-zero (not a "nothing to commit" race): the agent itself succeeds. -/
def envCommitFail : IterEnv :=
  { reload := none
    agent := .ok agentOutW
    git := { is_repo := true
             status := some { stdout := " M src/main.rs".toList, stderr := [], success := true, code := 0 }
             add := some { stdout := [], stderr := [], success := true, code := 0 }
             commit := some { stdout := [], stderr := "fatal: unable to write new index file".toList
                              success := false, code := 128 } }
    validationProc := some { stdout := [], stderr := [], success := true, code := 0 }
    gateProc := fun _ => some { stdout := [], stderr := [], success := true, code := 0 }
    appendOk := true
    now := nowW }

/-- An iteration environment whose `git status` exits non-zero: the agent
itself succeeds. -/
def envStatusFail : IterEnv :=
  { envCommitFail with
    git := { is_repo := true
             status := some { stdout := [], stderr := "fatal: not a git repository".toList
                              success := false, code := 128 }
             add := none, commit := none } }

/-- An iteration environment whose agent binary cannot be spawned. -/
def envSpawnFail : IterEnv :=
  { envW with agent := .error "claude CLI not found".toList }

/-- The gates and per-gate process outcomes of the C3 witness: the first gate
passes, the second fails. -/
def gatesW : List QualityGate :=
  [ { name := "gate1".toList, command := some "true".toList, script := none }
  , { name := "gate2".toList, command := some "false".toList, script := none } ]

def procW : Nat → Option ProcOutput := fun j =>
  if j = 0 then some { stdout := [], stderr := [], success := true, code := 0 }
  else some { stdout := [], stderr := [], success := false, code := 1 }

def grW : QualityGateResult :=
  { all_passed := false
    results := [("gate1".toList, true, ['\n']), ("gate2".toList, false, ['\n'])] }

/-! ### Lemmas about `isPrefixOf` -/

theorem nil_isPrefixOf (l : List Char) : ([] : List Char).isPrefixOf l = true := by
  cases l <;> rfl

theorem isPrefixOf_self : ∀ (l : List Char), l.isPrefixOf l = true
  | [] => rfl
  | x :: xs => by simp [List.isPrefixOf, isPrefixOf_self xs]

theorem isPrefixOf_append_extend : ∀ (p s b : List Char), p.isPrefixOf s → p.isPrefixOf (s ++ b)
  | [], s, b, _ => nil_isPrefixOf (s ++ b)
  | _ :: _, [], _, h => by simp [List.isPrefixOf] at h
  | x :: xs, y :: ys, b, h => by
    simp only [List.isPrefixOf, Bool.and_eq_true, beq_iff_eq] at h
    simp only [List.cons_append, List.isPrefixOf, Bool.and_eq_true, beq_iff_eq]
    exact ⟨h.1, isPrefixOf_append_extend xs ys b h.2⟩

theorem isPrefixOf_length_le : ∀ (p s : List Char), p.isPrefixOf s → p.length ≤ s.length
  | [], _, _ => by simp
  | _ :: _, [], h => by simp [List.isPrefixOf] at h
  | x :: xs, y :: ys, h => by
    simp only [List.isPrefixOf, Bool.and_eq_true, beq_iff_eq] at h
    simpa using isPrefixOf_length_le xs ys h.2

/-- Splitting a prefix of `s ++ b`: either it already is a prefix of `s`, or
it covers all of `s` and its remainder is a prefix of `b`. -/
theorem isPrefixOf_append_cases : ∀ (p s b : List Char), p.isPrefixOf (s ++ b) →
    p.isPrefixOf s = true ∨
      (s.length < p.length ∧ p.take s.length = s ∧ (p.drop s.length).isPrefixOf b = true)
  | [], s, _, _ => .inl (nil_isPrefixOf s)
  | x :: xs, [], b, h => .inr ⟨by simp, by simp, by simpa using h⟩
  | x :: xs, y :: ys, b, h => by
    simp only [List.cons_append, List.isPrefixOf, Bool.and_eq_true, beq_iff_eq] at h
    obtain ⟨hxy, h'⟩ := h
    rcases isPrefixOf_append_cases xs ys b h' with h1 | ⟨h2, h3, h4⟩
    · left
      simp [List.isPrefixOf, hxy, h1]
    · right
      refine ⟨by simpa using h2, ?_, ?_⟩
      · simp [List.take_succ_cons, hxy, h3]
      · simpa [List.drop_succ_cons] using h4

theorem isPrefixOf_head : ∀ (p : List Char) (y : Char) (ys : List Char),
    p.isPrefixOf (y :: ys) → p = [] ∨ ∃ xs, p = y :: xs
  | [], _, _, _ => .inl rfl
  | x :: xs, y, ys, h => by
    simp only [List.isPrefixOf, Bool.and_eq_true, beq_iff_eq] at h
    exact .inr ⟨xs, by rw [h.1]⟩

/-! ### Lemmas about `countOcc` -/

theorem countOcc_nil (pat : List Char) : countOcc pat [] = 0 := rfl

theorem countOccAux_eq_drop (pat : List Char) : ∀ (s : List Char) (k : Nat),
    countOccAux pat k s = countOcc pat (s.drop k)
  | [], k => by cases k <;> simp [countOccAux, countOcc]
  | _ :: _, 0 => by simp [countOcc]
  | c :: rest, k + 1 => by
    show countOccAux pat k rest = countOcc pat (rest.drop k)
    exact countOccAux_eq_drop pat rest k

/-- The scanning recurrence of `countOcc`: a match contributes 1 and the scan
resumes after its end, otherwise the scan advances one character. -/
theorem countOcc_cons (pat : List Char) (c : Char) (rest : List Char) :
    countOcc pat (c :: rest) =
      if pat.isPrefixOf (c :: rest) then 1 + countOcc pat (rest.drop (pat.length - 1))
      else countOcc pat rest := by
  show countOccAux pat 0 (c :: rest) = _
  rw [countOccAux]
  split
  · rw [countOccAux_eq_drop]
  · rfl

theorem countOcc_cons_of_ne (p : Char) (ps : List Char) (c : Char) (rest : List Char)
    (h : c ≠ p) : countOcc (p :: ps) (c :: rest) = countOcc (p :: ps) rest := by
  rw [countOcc_cons, if_neg]
  intro hcon
  simp only [List.isPrefixOf, Bool.and_eq_true, beq_iff_eq] at hcon
  exact h hcon.1.symm

theorem countOcc_append_of_ne_head (p : Char) (ps : List Char) :
    ∀ (a b : List Char), (∀ c ∈ a, c ≠ p) →
      countOcc (p :: ps) (a ++ b) = countOcc (p :: ps) b
  | [], _, _ => by simp
  | c :: a', b, h => by
    rw [List.cons_append, countOcc_cons_of_ne _ _ _ _ (h c (by simp))]
    exact countOcc_append_of_ne_head p ps a' b (fun d hd => h d (by simp [hd]))

/-- A text that starts with the (non-empty) pattern is counted as one match
there plus the matches after it. -/
theorem countOcc_self_append (p : Char) (ps b : List Char) :
    countOcc (p :: ps) ((p :: ps) ++ b) = 1 + countOcc (p :: ps) b := by
  rw [List.cons_append, countOcc_cons, if_pos]
  · have : ((ps ++ b).drop ((p :: ps).length - 1)) = b := by
      simp [List.drop_left ps b]
    rw [this]
  · exact isPrefixOf_append_extend _ _ _ (isPrefixOf_self _)

/-- Counting distributes over an append when no occurrence of the pattern
straddles the boundary (every prefix-match at a tail of `a` extended by `b`
already lies inside `a`). -/
theorem countOcc_append_aux (pat b : List Char) :
    ∀ (N : Nat) (a : List Char), a.length ≤ N →
      (∀ k, k < a.length → pat.isPrefixOf (a.drop k ++ b) → pat.isPrefixOf (a.drop k)) →
      countOcc pat (a ++ b) = countOcc pat a + countOcc pat b := by
  intro N
  induction N with
  | zero =>
    intro a ha _
    have : a = [] := List.length_eq_zero.mp (Nat.le_zero.mp ha)
    subst this
    simp [countOcc_nil]
  | succ N ih =>
    intro a ha hspan
    match a with
    | [] => simp [countOcc_nil]
    | c :: a' =>
      rw [List.cons_append, countOcc_cons, countOcc_cons]
      by_cases h1 : pat.isPrefixOf (c :: a') = true
      · have h1' : pat.isPrefixOf (c :: (a' ++ b)) = true := by
          have := isPrefixOf_append_extend pat (c :: a') b h1
          simpa using this
        rw [if_pos h1', if_pos h1]
        have hlen : pat.length ≤ a'.length + 1 := by
          simpa using isPrefixOf_length_le pat (c :: a') h1
        have hd : (a' ++ b).drop (pat.length - 1) = a'.drop (pat.length - 1) ++ b := by
          apply List.drop_append_of_le_length
          omega
        rw [hd]
        have hrec := ih (a'.drop (pat.length - 1))
          (by
            simp only [List.length_cons] at ha
            simp only [List.length_drop]
            omega)
          (by
            intro k hk hpre
            have hdd : (a'.drop (pat.length - 1)).drop k = (c :: a').drop (pat.length - 1 + k + 1) := by
              rw [List.drop_drop]
              rfl
            rw [hdd] at hpre ⊢
            refine hspan _ ?_ hpre
            simp only [List.length_drop] at hk
            simp only [List.length_cons]
            omega)
        rw [hrec]
        omega
      · have h1'' : ¬ pat.isPrefixOf (c :: (a' ++ b)) = true := by
          intro hcon
          apply h1
          have := hspan 0 (by simp) (by simpa using hcon)
          simpa using this
        rw [if_neg h1'', if_neg h1]
        apply ih a' (by simpa using Nat.lt_succ_iff.mp (Nat.lt_of_lt_of_le (Nat.lt_succ_of_le le_rfl) ha))
        intro k hk hpre
        have hdd : a'.drop k = (c :: a').drop (k + 1) := rfl
        rw [hdd] at hpre ⊢
        refine hspan _ ?_ hpre
        simp only [List.length_cons]
        omega

theorem countOcc_append (pat a b : List Char)
    (hspan : ∀ k, k < a.length → pat.isPrefixOf (a.drop k ++ b) → pat.isPrefixOf (a.drop k)) :
    countOcc pat (a ++ b) = countOcc pat a + countOcc pat b :=
  countOcc_append_aux pat b a.length a le_rfl hspan

/-! ### The record marker `"## Iteration"` -/

theorem patIteration_length : patIteration.length = 12 := by decide

/-- No occurrence of the marker can straddle a boundary that is followed by a
newline, because the marker contains no newline. -/
theorem patIteration_span_nl (a b : List Char) :
    countOcc patIteration (a ++ '\n' :: b) =
      countOcc patIteration a + countOcc patIteration ('\n' :: b) := by
  apply countOcc_append
  intro k hk hpre
  rcases isPrefixOf_append_cases _ _ _ hpre with h | ⟨h1, _, h3⟩
  · exact h
  · exfalso
    rw [patIteration_length] at h1
    rcases isPrefixOf_head _ _ _ h3 with hnil | ⟨xs, hx⟩
    · have hlen := congrArg List.length hnil
      rw [List.length_drop, patIteration_length, List.length_nil] at hlen
      omega
    · have hfact : ∀ j, j < 12 → (patIteration.drop j).head? ≠ some '\n' := by decide
      exact hfact _ h1 (by rw [hx]; rfl)

/-- No occurrence of the marker can straddle a boundary that is followed by the
marker itself, because no proper suffix of the marker is one of its
prefixes. -/
theorem patIteration_span_self (a b : List Char) :
    countOcc patIteration (a ++ (patIteration ++ b)) =
      countOcc patIteration a + countOcc patIteration (patIteration ++ b) := by
  apply countOcc_append
  intro k hk hpre
  rcases isPrefixOf_append_cases _ _ _ hpre with h | ⟨h1, _, h3⟩
  · exact h
  · exfalso
    rw [patIteration_length] at h1
    have hdl : (a.drop k).length = a.length - k := List.length_drop k a
    have hpos : 0 < (a.drop k).length := by omega
    rcases isPrefixOf_append_cases _ _ _ h3 with h4 | ⟨h5, _, _⟩
    · have hfact : ∀ j, j < 12 → 0 < j → (patIteration.drop j).isPrefixOf patIteration = false := by
        decide
      rw [hfact _ h1 hpos] at h4
      simp at h4
    · rw [patIteration_length] at h5
      simp only [List.length_drop, patIteration_length] at h5
      omega

/-! ### No `'#'` occurs in digits, timestamps, or the fixed entry text -/

theorem digitChar_ne_hash (d : Nat) : digitChar d ≠ '#' := by
  unfold digitChar
  split <;> decide

theorem natToCharsAux_no_hash : ∀ (f n : Nat) (acc : List Char),
    (∀ c ∈ acc, c ≠ '#') → ∀ c ∈ natToCharsAux f n acc, c ≠ '#'
  | 0, n, acc, hacc => by simpa [natToCharsAux] using hacc
  | f + 1, n, acc, hacc => by
    rw [natToCharsAux]
    split
    · intro c hc
      rcases List.mem_cons.mp hc with h | h
      · rw [h]; exact digitChar_ne_hash n
      · exact hacc c h
    · refine natToCharsAux_no_hash f (n / 10) _ ?_
      intro c hc
      rcases List.mem_cons.mp hc with h | h
      · rw [h]; exact digitChar_ne_hash _
      · exact hacc c h

theorem natToChars_no_hash (n : Nat) : ∀ c ∈ natToChars n, c ≠ '#' :=
  natToCharsAux_no_hash (n + 1) n [] (by simp)

theorem pad2_no_hash (n : Nat) : ∀ c ∈ pad2 n, c ≠ '#' := by
  intro c hc
  rcases List.mem_append.mp hc with h | h
  · rw [List.eq_of_mem_replicate h]; decide
  · exact natToChars_no_hash n c h

theorem pad4_no_hash (n : Nat) : ∀ c ∈ pad4 n, c ≠ '#' := by
  intro c hc
  rcases List.mem_append.mp hc with h | h
  · rw [List.eq_of_mem_replicate h]; decide
  · exact natToChars_no_hash n c h

theorem formatTimestamp_no_hash (t : DateTimeU) : ∀ c ∈ formatTimestamp t, c ≠ '#' := by
  intro c hc
  simp only [formatTimestamp, List.mem_append, List.mem_cons] at hc
  rcases hc with (((((h | h | h) | h | h) | h | h) | h | h) | h | h) | h
  · exact pad4_no_hash _ _ h
  · subst h; decide
  · exact pad2_no_hash _ _ h
  · subst h; decide
  · exact pad2_no_hash _ _ h
  · subst h; decide
  · exact pad2_no_hash _ _ h
  · subst h; decide
  · exact pad2_no_hash _ _ h
  · subst h; decide
  · exact pad2_no_hash _ _ h
  · exact (by decide : ∀ x ∈ " UTC".toList, x ≠ '#') _ h

/-! ### Counting record markers in one appended entry -/

theorem logEntry_append (r : IterationResult) (t : DateTimeU) (b : List Char) :
    logEntry r t ++ b = patIteration ++ (midChunk r t ++ (r.summary ++ '\n' :: '\n' :: b)) := by
  simp [logEntry, midChunk, patIteration, List.append_assoc]

theorem countOcc_patIteration_led (b : List Char) :
    countOcc patIteration (patIteration ++ b) = 1 + countOcc patIteration b := by
  rw [(by decide : patIteration = '#' :: "# Iteration".toList)]
  exact countOcc_self_append _ _ b

theorem countOcc_nl_nl (b : List Char) :
    countOcc patIteration ('\n' :: '\n' :: b) = countOcc patIteration b := by
  rw [(by decide : patIteration = '#' :: "# Iteration".toList),
    countOcc_cons_of_ne _ _ _ _ (by decide), countOcc_cons_of_ne _ _ _ _ (by decide)]

theorem countOcc_midChunk_append (r : IterationResult) (t : DateTimeU) (y : List Char) :
    countOcc patIteration (midChunk r t ++ y) = countOcc patIteration y := by
  rw [(by decide : patIteration = '#' :: "# Iteration".toList)]
  apply countOcc_append_of_ne_head
  intro c hc
  simp only [midChunk, List.mem_cons, List.mem_append] at hc
  rcases hc with h | ((((((h | h) | h) | h) | h) | h) | h) | h
  · subst h; decide
  · exact natToChars_no_hash _ _ h
  · exact (by decide : ∀ x ∈ "\nTimestamp: ".toList, x ≠ '#') _ h
  · exact formatTimestamp_no_hash _ _ h
  · exact (by decide : ∀ x ∈ "\nValidation: ".toList, x ≠ '#') _ h
  · revert h
    cases r.validation_passed <;> intro h <;>
      first
        | exact (by decide : ∀ x ∈ "PASSED".toList, x ≠ '#') _ (by simpa using h)
        | exact (by decide : ∀ x ∈ "FAILED".toList, x ≠ '#') _ (by simpa using h)
  · exact (by decide : ∀ x ∈ "\nPromise: ".toList, x ≠ '#') _ h
  · revert h
    cases r.promise_found <;> intro h <;>
      first
        | exact (by decide : ∀ x ∈ "FOUND".toList, x ≠ '#') _ (by simpa using h)
        | exact (by decide : ∀ x ∈ "NOT FOUND".toList, x ≠ '#') _ (by simpa using h)
  · exact (by decide : ∀ x ∈ "\nSummary: ".toList, x ≠ '#') _ h

/-- Appending one record entry in front of any continuation contributes exactly
one marker for the entry header plus the markers inside the summary text. -/
theorem countOcc_logEntry_append (r : IterationResult) (t : DateTimeU) (b : List Char) :
    countOcc patIteration (logEntry r t ++ b) =
      1 + countOcc patIteration r.summary + countOcc patIteration b := by
  rw [logEntry_append, countOcc_patIteration_led, countOcc_midChunk_append,
    patIteration_span_nl, countOcc_nl_nl]
  omega

theorem countOcc_logEntry (r : IterationResult) (t : DateTimeU) :
    countOcc patIteration (logEntry r t) = 1 + countOcc patIteration r.summary := by
  have := countOcc_logEntry_append r t []
  rw [List.append_nil, countOcc_nil] at this
  omega

/-- Appending one record always raises the derived iteration count by one plus
the number of markers hidden inside the record's summary text. -/
theorem iteration_count_log_iteration (store : Store) (r : IterationResult) (t : DateTimeU) :
    iteration_count (log_iteration store r t) =
      iteration_count store + 1 + countOcc patIteration r.summary := by
  cases store with
  | none =>
    show countOcc patIteration ([] ++ logEntry r t) = 0 + 1 + countOcc patIteration r.summary
    rw [List.nil_append, countOcc_logEntry]
    try omega
  | some content =>
    show countOcc patIteration (content ++ logEntry r t)
      = countOcc patIteration content + 1 + countOcc patIteration r.summary
    have hsplit := logEntry_append r t []
    rw [List.append_nil] at hsplit
    rw [hsplit, patIteration_span_self, ← hsplit, countOcc_logEntry]
    omega

theorem countOcc_recordsText (recs : List (IterationResult × DateTimeU))
    (hs : ∀ rt ∈ recs, countOcc patIteration rt.1.summary = 0) :
    countOcc patIteration (recordsText recs) = recs.length := by
  induction recs with
  | nil => simp [recordsText, countOcc_nil]
  | cons rt rest ih =>
    obtain ⟨r, t⟩ := rt
    show countOcc patIteration (logEntry r t ++ recordsText rest) = rest.length + 1
    rw [countOcc_logEntry_append, ih (fun x hx => hs x (by simp [hx])),
      hs (r, t) (by simp)]
    omega

/-- Prepending any marker-free header leaves the derived record count
unchanged. -/
theorem countOcc_header_recordsText (hdr : List Char) (recs : List (IterationResult × DateTimeU))
    (h0 : countOcc patIteration hdr = 0) :
    countOcc patIteration (hdr ++ recordsText recs) =
      countOcc patIteration (recordsText recs) := by
  cases recs with
  | nil =>
    show countOcc patIteration (hdr ++ []) = countOcc patIteration []
    rw [List.append_nil, countOcc_nil, h0]
  | cons rt rest =>
    obtain ⟨r, t⟩ := rt
    have e1 : recordsText ((r, t) :: rest) = patIteration
        ++ (midChunk r t ++ (r.summary ++ '\n' :: '\n' :: recordsText rest)) := by
      rw [show recordsText ((r, t) :: rest) = logEntry r t ++ recordsText rest from rfl,
        logEntry_append]
    rw [e1, patIteration_span_self, h0, Nat.zero_add]

/-! ### Structural lemmas about one iteration -/

/-- Whatever happens after a successful agent call, steps 4-9 keep the config
and trace of the entering state, touch the store only by appending at most one
record, and can only `return` a `Complete {n}` outcome. -/
theorem finishIteration_shape (n : Nat) (env : IterEnv) (config : Config) (output : List Char)
    (s1 : RunState) :
    (finishIteration n env config output s1).state.config = s1.config ∧
    (finishIteration n env config output s1).state.trace = s1.trace ∧
    ((finishIteration n env config output s1).state.store = s1.store ∨
      ∃ r : IterationResult,
        (finishIteration n env config output s1).state.store = log_iteration s1.store r env.now) ∧
    (∀ s2 o, finishIteration n env config output s1 = .finished s2 o → o = .complete n) := by
  simp only [finishIteration]
  cases hgit : (if config.git.auto_commit = true then runner_git_auto_commit env.git n config
      else Except.ok ()) with
  | error e => exact ⟨rfl, rfl, .inl rfl, fun s2 o h => by cases h⟩
  | ok u =>
    cases hval : run_validation env.validationProc config.validation.command with
    | error e => exact ⟨rfl, rfl, .inl rfl, fun s2 o h => by cases h⟩
    | ok vres =>
      cases happ : env.appendOk with
      | false => exact ⟨rfl, rfl, .inl rfl, fun s2 o h => by cases h⟩
      | true =>
        simp only []
        by_cases hcond :
            (vres.passed && hasSubstr config.loop_config.completion_signal output) = true
        · rw [if_pos hcond]
          cases hg : run_quality_gates env.gateProc config.quality_gates with
          | error e => exact ⟨rfl, rfl, .inr ⟨_, rfl⟩, fun s2 o h => by cases h⟩
          | ok gr =>
            simp only []
            cases hap : gr.all_passed with
            | false => exact ⟨rfl, rfl, .inr ⟨_, rfl⟩, fun s2 o h => by cases h⟩
            | true => exact ⟨rfl, rfl, .inr ⟨_, rfl⟩, fun s2 o h => by cases h; rfl⟩
        · rw [if_neg hcond]
          exact ⟨rfl, rfl, .inr ⟨_, rfl⟩, fun s2 o h => by cases h⟩

/-- The `run_iteration` analogue of `finishIteration_shape`: the new config is
the reloaded one, the trace gains at most this iteration's agent call, the
store gains at most this iteration's record, a `return` carries `Complete {n}`
or `Error {n-1}`, and falling through to the next iteration records exactly
one agent call. -/
theorem run_iteration_shape (plan : List Char) (n : Nat) (env : IterEnv) (s : RunState) :
    (run_iteration plan n env s).state.config = env.reload.getD s.config ∧
    ((run_iteration plan n env s).state.trace = s.trace ∨
      ∃ args, (run_iteration plan n env s).state.trace = s.trace ++ [.agentCall n args]) ∧
    ((run_iteration plan n env s).state.store = s.store ∨
      ∃ r : IterationResult,
        (run_iteration plan n env s).state.store = log_iteration s.store r env.now) ∧
    (∀ s2 o, run_iteration plan n env s = .finished s2 o →
      (∃ msg, o = .error (n - 1) msg) ∨ o = .complete n) ∧
    (∀ s2, run_iteration plan n env s = .next s2 →
      ∃ args, s2.trace = s.trace ++ [.agentCall n args]) := by
  simp only [run_iteration]
  cases hagent : run_claude env.agent with
  | error msg =>
    refine ⟨rfl, .inl rfl, .inl rfl, ?_, ?_⟩
    · intro s2 o h
      cases h
      exact .inl ⟨msg, rfl⟩
    · intro s2 h
      cases h
  | ok output =>
    obtain ⟨hc, ht, hst, hfin⟩ := finishIteration_shape n env (env.reload.getD s.config) output
      { config := env.reload.getD s.config, store := s.store
        trace := s.trace ++ [.agentCall n
          (claude_args (env.reload.getD s.config) (build_prompt (env.reload.getD s.config) plan))] }
    refine ⟨hc, ?_, hst, fun s2 o h => .inr (hfin s2 o h), ?_⟩
    · exact .inr ⟨_, ht⟩
    · intro s2 h
      simp only [] at h
      rw [h] at ht
      exact ⟨_, ht⟩

theorem run_iteration_state_trace_mem (plan : List Char) (n : Nat) (env : IterEnv) (s : RunState)
    (e : Event) (he : e ∈ (run_iteration plan n env s).state.trace) :
    e ∈ s.trace ∨ ∃ args, e = .agentCall n args := by
  rcases (run_iteration_shape plan n env s).2.1 with h | ⟨args, h⟩
  · rw [h] at he
    exact .inl he
  · rw [h] at he
    rcases List.mem_append.mp he with h1 | h1
    · exact .inl h1
    · exact .inr ⟨args, by simpa using h1⟩

/-! ### Structural lemmas about the loop -/

/-- Every event in the final trace was already there or is an agent call of one
of the iterations the loop could reach (`n ≤ i < n + fuel`). -/
theorem run_loop_trace_mem (plan : List Char) (envs : Nat → IterEnv) :
    ∀ (fuel n : Nat) (s : RunState) (e : Event),
      e ∈ (run_loop plan envs fuel n s).1.trace →
      e ∈ s.trace ∨ ∃ i args, e = .agentCall i args ∧ n ≤ i ∧ i < n + fuel := by
  intro fuel
  induction fuel with
  | zero => exact fun n s e h => .inl h
  | succ fuel ih =>
    intro n s e
    rw [run_loop]
    cases hstep : run_iteration plan n (envs n) s with
    | next s2 =>
      intro h
      have hstate : (run_iteration plan n (envs n) s).state = s2 := by rw [hstep]; rfl
      rcases ih (n + 1) s2 e h with h1 | ⟨i, args, he, hlo, hhi⟩
      · rw [← hstate] at h1
        rcases run_iteration_state_trace_mem plan n (envs n) s e h1 with h2 | ⟨args, h2⟩
        · exact .inl h2
        · exact .inr ⟨n, args, h2, le_rfl, by omega⟩
      · exact .inr ⟨i, args, he, by omega, by omega⟩
    | finished s2 o =>
      intro h
      have hstate : (run_iteration plan n (envs n) s).state = s2 := by rw [hstep]; rfl
      rw [show ((s2, Except.ok (ε := RunError) o)).1 = s2 from rfl, ← hstate] at h
      rcases run_iteration_state_trace_mem plan n (envs n) s e h with h2 | ⟨args, h2⟩
      · exact .inl h2
      · exact .inr ⟨n, args, h2, le_rfl, by omega⟩
    | failed s2 err =>
      intro h
      have hstate : (run_iteration plan n (envs n) s).state = s2 := by rw [hstep]; rfl
      rw [show ((s2, Except.error (α := LoopOutcome) err)).1 = s2 from rfl, ← hstate] at h
      rcases run_iteration_state_trace_mem plan n (envs n) s e h with h2 | ⟨args, h2⟩
      · exact .inl h2
      · exact .inr ⟨n, args, h2, le_rfl, by omega⟩

/-- The loop only ever appends to the trace. -/
theorem run_loop_trace_mono (plan : List Char) (envs : Nat → IterEnv) :
    ∀ (fuel n : Nat) (s : RunState),
      ∃ tl, (run_loop plan envs fuel n s).1.trace = s.trace ++ tl := by
  intro fuel
  induction fuel with
  | zero => exact fun n s => ⟨[], by simp [run_loop]⟩
  | succ fuel ih =>
    intro n s
    rw [run_loop]
    cases hstep : run_iteration plan n (envs n) s with
    | next s2 =>
      obtain ⟨tl1, h1⟩ := ih (n + 1) s2
      have hstate : (run_iteration plan n (envs n) s).state = s2 := by rw [hstep]; rfl
      rcases (run_iteration_shape plan n (envs n) s).2.1 with h2 | ⟨args, h2⟩ <;>
        rw [hstate] at h2
      · exact ⟨tl1, by rw [h1, h2]⟩
      · exact ⟨[Event.agentCall n args] ++ tl1, by rw [h1, h2, List.append_assoc]⟩
    | finished s2 o =>
      have hstate : (run_iteration plan n (envs n) s).state = s2 := by rw [hstep]; rfl
      rcases (run_iteration_shape plan n (envs n) s).2.1 with h2 | ⟨args, h2⟩ <;>
        rw [hstate] at h2
      · exact ⟨[], by rw [List.append_nil]; exact h2⟩
      · exact ⟨[Event.agentCall n args], h2⟩
    | failed s2 err =>
      have hstate : (run_iteration plan n (envs n) s).state = s2 := by rw [hstep]; rfl
      rcases (run_iteration_shape plan n (envs n) s).2.1 with h2 | ⟨args, h2⟩ <;>
        rw [hstate] at h2
      · exact ⟨[], by rw [List.append_nil]; exact h2⟩
      · exact ⟨[Event.agentCall n args], h2⟩

/-- When the loop exhausts its range, the reported `MaxIterations` count is the
`max_iterations` of the config left in memory by the last iteration, and every
iteration of the range recorded its agent call. -/
theorem run_loop_max_inv (plan : List Char) (envs : Nat → IterEnv) :
    ∀ (fuel n : Nat) (s : RunState) (k : Nat),
      (run_loop plan envs fuel n s).2 = .ok (.maxIterations k) →
      k = (run_loop plan envs fuel n s).1.config.loop_config.max_iterations ∧
      ∀ i, n ≤ i → i < n + fuel →
        ∃ args, Event.agentCall i args ∈ (run_loop plan envs fuel n s).1.trace := by
  intro fuel
  induction fuel with
  | zero =>
    intro n s k h
    rw [run_loop] at h ⊢
    refine ⟨?_, fun i h1 h2 => by omega⟩
    cases h
    rfl
  | succ fuel ih =>
    intro n s k
    rw [run_loop]
    cases hstep : run_iteration plan n (envs n) s with
    | next s2 =>
      intro h
      obtain ⟨hk, hcov⟩ := ih (n + 1) s2 k h
      refine ⟨hk, ?_⟩
      intro i h1 h2
      rcases Nat.eq_or_lt_of_le h1 with rfl | hlt
      · obtain ⟨args, ht⟩ := (run_iteration_shape plan n (envs n) s).2.2.2.2 s2 hstep
        obtain ⟨tl, hmono⟩ := run_loop_trace_mono plan envs fuel (n + 1) s2
        refine ⟨args, ?_⟩
        rw [hmono, ht]
        simp
      · exact hcov i hlt (by omega)
    | finished s2 o =>
      intro h
      exfalso
      have ho : o = LoopOutcome.maxIterations k := by
        cases h
        rfl
      rcases (run_iteration_shape plan n (envs n) s).2.2.2.1 s2 o hstep with ⟨msg, hmsg⟩ | hc <;>
        subst ho
      · cases hmsg
      · cases hc
    | failed s2 err =>
      intro h
      cases h

/-! ### Quality-gate execution structure -/

/-- Invariant of the gate loop: on success the accumulated results are extended
by one genuine per-gate result per configured gate, in declared order, indexed
against the per-gate process environment, and the aggregate flag is the
incoming flag AND-ed with every new result. -/
theorem run_quality_gates_go_spec (proc : Nat → Option ProcOutput) :
    ∀ (gates : List QualityGate) (i : Nat) (allp : Bool)
      (acc : List (List Char × Bool × List Char)) (gr : QualityGateResult),
      run_quality_gates_go proc i gates allp acc = .ok gr →
      ∃ newres,
        gr.results = acc ++ newres ∧
        newres.length = gates.length ∧
        (∀ j (hj : j < gates.length), ∃ p, proc (i + j) = some p ∧
          newres[j]? = some ((gates.get ⟨j, hj⟩).name, p.success, p.stdout ++ '\n' :: p.stderr)) ∧
        gr.all_passed = (allp && newres.all (fun r => r.2.1)) := by
  intro gates
  induction gates with
  | nil =>
    intro i allp acc gr h
    rw [run_quality_gates_go] at h
    cases h
    exact ⟨[], by simp, rfl, fun j hj => absurd hj (by simp), by simp⟩
  | cons g rest ih =>
    intro i allp acc gr h
    rw [run_quality_gates_go] at h
    cases hcmd : g.get_command with
    | error e =>
      rw [hcmd] at h
      cases h
    | ok cmd =>
      rw [hcmd] at h
      cases hp : proc i with
      | none =>
        rw [hp] at h
        cases h
      | some p =>
        rw [hp] at h
        simp only [run_gate_command] at h
        obtain ⟨newres', h1, h2, h3, h4⟩ := ih (i + 1) (if p.success then allp else false)
          (acc ++ [(g.name, p.success, p.stdout ++ '\n' :: p.stderr)]) gr h
        refine ⟨(g.name, p.success, p.stdout ++ '\n' :: p.stderr) :: newres', ?_, ?_, ?_, ?_⟩
        · rw [h1, List.append_assoc]
          rfl
        · simp [h2]
        · intro j hj
          cases j with
          | zero => exact ⟨p, by simpa using hp, by simp⟩
          | succ j' =>
            obtain ⟨q, hq1, hq2⟩ := h3 j' (by simpa using hj)
            refine ⟨q, by rw [← hq1]; congr 1; omega, ?_⟩
            simpa using hq2
        · rw [h4]
          cases p.success <;> cases allp <;> simp

/-- Top-level corollary for `run_quality_gates`: every configured gate is
executed with its own process outcome (no short-circuit), results appear in
declared order, and the aggregate is the AND of the individual results. -/
theorem run_quality_gates_spec (proc : Nat → Option ProcOutput) (gates : List QualityGate)
    (gr : QualityGateResult) (h : run_quality_gates proc gates = .ok gr) :
    gr.results.length = gates.length ∧
    (∀ j (hj : j < gates.length), ∃ p, proc j = some p ∧
      gr.results[j]? = some ((gates.get ⟨j, hj⟩).name, p.success, p.stdout ++ '\n' :: p.stderr)) ∧
    gr.all_passed = gr.results.all (fun r => r.2.1) := by
  obtain ⟨newres, h1, h2, h3, h4⟩ := run_quality_gates_go_spec proc gates 0 true [] gr h
  rw [List.nil_append] at h1
  subst h1
  refine ⟨h2, ?_, by simpa using h4⟩
  intro j hj
  simpa using h3 j hj

/-! ### Conditions under which no `?` fires inside the loop -/

theorem runner_git_auto_commit_ok (g : GitEnv) (n : Nat) (config : Config) (h : GitEnvOk g) :
    runner_git_auto_commit g n config = .ok () := by
  cases hr : g.is_repo with
  | false => simp [runner_git_auto_commit, hr]
  | true =>
    rcases h with h | ⟨st, hst, hsu, h2⟩
    · rw [h] at hr
      cases hr
    · rcases h2 with h2 | ⟨ad, had, hadsu, cm, hcm, hcmok⟩
      · simp [runner_git_auto_commit, has_changes, hr, hst, hsu, h2]
      · cases hemp : (trimChars st.stdout).isEmpty with
        | true => simp [runner_git_auto_commit, has_changes, hr, hst, hsu, hemp]
        | false =>
          rcases hcmok with hcmok | hcmok
          · simp [runner_git_auto_commit, has_changes, git_auto_commit, hr, hst, hsu, hemp,
              had, hadsu, hcm, hcmok]
          · simp [runner_git_auto_commit, has_changes, git_auto_commit, hr, hst, hsu, hemp,
              had, hadsu, hcm]
            intro _
            simpa using hcmok

theorem run_quality_gates_go_ok (proc : Nat → Option ProcOutput) :
    ∀ (gates : List QualityGate) (i : Nat) (allp : Bool)
      (acc : List (List Char × Bool × List Char)),
      (∀ g ∈ gates, (∃ cmd, g.command = some cmd ∧ g.script = none) ∨
        (∃ p, g.command = none ∧ g.script = some p)) →
      (∀ j, ∃ p, proc j = some p) →
      ∃ gr, run_quality_gates_go proc i gates allp acc = .ok gr := by
  intro gates
  induction gates with
  | nil => exact fun i allp acc _ _ => ⟨_, rfl⟩
  | cons g rest ih =>
    intro i allp acc hwf hproc
    have hcmd : ∃ cmd, g.get_command = .ok cmd := by
      rcases hwf g (by simp) with ⟨cmd, hc, hs⟩ | ⟨p, hc, hs⟩ <;>
        simp [QualityGate.get_command, hc, hs]
    obtain ⟨cmd, hcmd⟩ := hcmd
    obtain ⟨p, hp⟩ := hproc i
    rw [run_quality_gates_go, hcmd, hp]
    simp only [run_gate_command]
    exact ih (i + 1) _ _ (fun g' hg' => hwf g' (by simp [hg'])) hproc

/-- Under working infrastructure an iteration never propagates an error: it
either falls through to the next iteration or returns an outcome — whatever
the exit statuses of the agent, the validation command and the gates were. -/
theorem run_iteration_no_fail (plan : List Char) (n : Nat) (env : IterEnv) (s : RunState)
    (hok : IterEnvOk env) (hwf : WellFormedGates (env.reload.getD s.config)) :
    (∃ s2, run_iteration plan n env s = .next s2) ∨
      (∃ s2 o, run_iteration plan n env s = .finished s2 o) := by
  obtain ⟨hgit, ⟨v, hv⟩, hgates, happ⟩ := hok
  simp only [run_iteration]
  cases hagent : run_claude env.agent with
  | error msg => exact .inr ⟨_, _, rfl⟩
  | ok output =>
    simp only [finishIteration]
    have hgit' : (if (env.reload.getD s.config).git.auto_commit = true
        then runner_git_auto_commit env.git n (env.reload.getD s.config)
        else Except.ok ()) = Except.ok () := by
      split
      · exact runner_git_auto_commit_ok _ _ _ hgit
      · rfl
    rw [hgit', hv]
    simp only [run_validation, happ]
    by_cases hcond : (v.success && hasSubstr
        (env.reload.getD s.config).loop_config.completion_signal output) = true
    · rw [if_pos hcond]
      obtain ⟨gr, hgr⟩ := run_quality_gates_go_ok env.gateProc
        (env.reload.getD s.config).quality_gates 0 true [] hwf hgates
      rw [show run_quality_gates env.gateProc (env.reload.getD s.config).quality_gates
          = .ok gr from hgr]
      simp only []
      cases gr.all_passed with
      | true => exact .inr ⟨_, _, rfl⟩
      | false => exact .inl ⟨_, rfl⟩
    · rw [if_neg hcond]
      exact .inl ⟨_, rfl⟩

/-- Under working infrastructure and well-formed gate configurations the whole
loop always produces a `LoopOutcome` (never an `Err`). -/
theorem run_loop_no_fail (plan : List Char) (envs : Nat → IterEnv)
    (hok : ∀ m, IterEnvOk (envs m))
    (hreload : ∀ m c, (envs m).reload = some c → WellFormedGates c) :
    ∀ (fuel n : Nat) (s : RunState), WellFormedGates s.config →
      ∃ o, (run_loop plan envs fuel n s).2 = .ok o := by
  intro fuel
  induction fuel with
  | zero => exact fun n s _ => ⟨_, rfl⟩
  | succ fuel ih =>
    intro n s hwf
    have hwf' : WellFormedGates ((envs n).reload.getD s.config) := by
      cases hc : (envs n).reload with
      | none => exact hwf
      | some c => exact hreload n c hc
    rw [run_loop]
    rcases run_iteration_no_fail plan n (envs n) s (hok n) hwf' with ⟨s2, hs⟩ | ⟨s2, o, hs⟩
    · rw [hs]
      have hcfg : s2.config = (envs n).reload.getD s.config := by
        have := (run_iteration_shape plan n (envs n) s).1
        rw [hs] at this
        exact this
      exact ih (n + 1) s2 (by rw [hcfg]; exact hwf')
    · rw [hs]
      exact ⟨o, rfl⟩

/-! ### `iteration_timeout_minutes` does not interfere with the loop -/

theorem runner_git_auto_commit_setTimeout (g : GitEnv) (n : Nat) (c : Config) (w : Nat) :
    runner_git_auto_commit g n (setTimeout c w) = runner_git_auto_commit g n c := rfl

theorem build_prompt_setTimeout (c : Config) (plan : List Char) (w : Nat) :
    build_prompt (setTimeout c w) plan = build_prompt c plan := rfl

theorem claude_args_setTimeout (c : Config) (p : List Char) (w : Nat) :
    claude_args (setTimeout c w) p = claude_args c p := rfl

/-- Steps 4-9 are oblivious to `iteration_timeout_minutes`. -/
theorem finishIteration_timeout (n : Nat) (env : IterEnv) (c : Config) (output : List Char)
    (s1 : RunState) (w : Nat) :
    finishIteration n env (setTimeout c w) output (s1.mapTimeout w) =
      (finishIteration n env c output s1).mapTimeout w := by
  simp only [finishIteration]
  have hgit : (if (setTimeout c w).git.auto_commit = true
      then runner_git_auto_commit env.git n (setTimeout c w) else Except.ok ())
      = (if c.git.auto_commit = true then runner_git_auto_commit env.git n c
        else Except.ok ()) := rfl
  rw [hgit,
    show (setTimeout c w).validation.command = c.validation.command from rfl,
    show (setTimeout c w).loop_config.completion_signal
      = c.loop_config.completion_signal from rfl,
    show (setTimeout c w).quality_gates = c.quality_gates from rfl]
  cases (if c.git.auto_commit = true then runner_git_auto_commit env.git n c
      else Except.ok ()) with
  | error e => rfl
  | ok u =>
    cases run_validation env.validationProc c.validation.command with
    | error e => rfl
    | ok vres =>
      cases env.appendOk with
      | false => rfl
      | true =>
        simp only []
        by_cases hcond :
            (vres.passed && hasSubstr c.loop_config.completion_signal output) = true
        · rw [if_pos hcond, if_pos hcond]
          cases run_quality_gates env.gateProc c.quality_gates with
          | error e => rfl
          | ok gr =>
            simp only []
            cases gr.all_passed <;> rfl
        · rw [if_neg hcond, if_neg hcond]
          rfl

/-- One whole iteration is oblivious to `iteration_timeout_minutes`: mapping
the in-memory config and the reloaded config changes nothing else. -/
theorem run_iteration_timeout (plan : List Char) (n : Nat) (env : IterEnv) (s : RunState)
    (u v : Nat) :
    run_iteration plan n { env with reload := env.reload.map (fun c => setTimeout c v) }
        (s.mapTimeout u) =
      (run_iteration plan n env s).mapTimeout
        (match env.reload with | some _ => v | none => u) := by
  simp only [run_iteration]
  cases hr : env.reload with
  | none =>
    cases hagent : run_claude env.agent with
    | error msg => rfl
    | ok output =>
      exact finishIteration_timeout n env s.config output
        { config := s.config, store := s.store
          trace := s.trace ++ [.agentCall n (claude_args s.config (build_prompt s.config plan))] } u
  | some c =>
    cases hagent : run_claude env.agent with
    | error msg => rfl
    | ok output =>
      exact finishIteration_timeout n env c output
        { config := c, store := s.store
          trace := s.trace ++ [.agentCall n (claude_args c (build_prompt c plan))] } v

/-- The loop is oblivious to `iteration_timeout_minutes`: the final store,
trace and outcome agree, and the final configs differ at most in that field. -/
theorem run_loop_timeout (plan : List Char) (envs : Nat → IterEnv) (tf : Nat → Nat) :
    ∀ (fuel n : Nat) (s : RunState) (u : Nat),
      ∃ u', run_loop plan (mapEnvsTimeout envs tf) fuel n (s.mapTimeout u) =
        ((run_loop plan envs fuel n s).1.mapTimeout u', (run_loop plan envs fuel n s).2) := by
  intro fuel
  induction fuel with
  | zero => exact fun n s u => ⟨u, rfl⟩
  | succ fuel ih =>
    intro n s u
    rw [run_loop, run_loop]
    have hstep : run_iteration plan n (mapEnvsTimeout envs tf n) (s.mapTimeout u) =
        (run_iteration plan n (envs n) s).mapTimeout
          (match (envs n).reload with | some _ => tf n | none => u) :=
      run_iteration_timeout plan n (envs n) s u (tf n)
    rw [hstep]
    cases run_iteration plan n (envs n) s with
    | next s2 => exact ih (n + 1) s2 _
    | finished s2 o => exact ⟨_, rfl⟩
    | failed s2 e => exact ⟨_, rfl⟩

/-! ### Spawn failure and gate-suppression lemmas -/

/-- If the agent of iteration `n` cannot be spawned, the loop body reached at
`n` immediately returns `Error {iterations := n - 1}` carrying the spawn error
text, with the store and trace untouched. -/
theorem run_loop_spawn_failure (plan : List Char) (envs : Nat → IterEnv) (fuel n : Nat)
    (s : RunState) (msg : List Char) (h : (envs n).agent = .error msg) :
    run_loop plan envs (fuel + 1) n s =
      ({ config := (envs n).reload.getD s.config, store := s.store, trace := s.trace },
        .ok (.error (n - 1) msg)) := by
  rw [run_loop]
  have hstep : run_iteration plan n (envs n) s =
      .finished { config := (envs n).reload.getD s.config, store := s.store, trace := s.trace }
        (.error (n - 1) msg) := by
    simp only [run_iteration, run_claude, h]
  rw [hstep]

/-- When validation failed or the completion signal is absent, the per-gate
process environment is never consulted: the iteration is identical for any two
gate environments. -/
theorem run_iteration_gates_unused (plan : List Char) (n : Nat) (env : IterEnv) (s : RunState)
    (q : Nat → Option ProcOutput) (v : ProcOutput) (aout : AgentOutput)
    (hag : env.agent = .ok aout)
    (hv : env.validationProc = some v)
    (hcond : (v.success && hasSubstr (env.reload.getD s.config).loop_config.completion_signal
        (aout.stdout ++ '\n' :: aout.stderr)) = false) :
    run_iteration plan n { env with gateProc := q } s = run_iteration plan n env s := by
  simp only [run_iteration, run_claude, hag, finishIteration, hv, run_validation]
  cases hgit : (if (env.reload.getD s.config).git.auto_commit = true
      then runner_git_auto_commit env.git n (env.reload.getD s.config)
      else Except.ok ()) with
  | error e => rfl
  | ok u =>
    cases happ : env.appendOk with
    | false => rfl
    | true =>
      simp only [if_true]
      rw [if_neg (by rw [hcond]; simp), if_neg (by rw [hcond]; simp)]

/-! ### C6 — gate resolution totality -/

/-- C6: resolving a quality gate fails exactly when it has both an inline
command and a script path, or neither; with exactly the inline command the
command string is returned verbatim, and with exactly the script path a shell
invocation wrapping the script path is returned. -/
theorem claim_c6_gate_resolution (g : QualityGate) :
    ((∃ e, g.get_command = .error e) ↔
      ((g.command.isSome ∧ g.script.isSome) ∨ (g.command = none ∧ g.script = none))) ∧
    (∀ cmd, g.command = some cmd → g.script = none → g.get_command = .ok cmd) ∧
    (∀ p, g.command = none → g.script = some p →
      g.get_command = .ok ("bash ".toList ++ p)) := by
  obtain ⟨name, command, script⟩ := g
  rcases command with _ | cmd <;> rcases script with _ | p <;>
    simp [QualityGate.get_command]

/-- Witness for C6 at a concrete gate carrying only an inline command. -/
theorem claim_c6_witness :
    QualityGate.get_command { name := "check".toList, command := some "true".toList, script := none }
      = .ok "true".toList :=
  (claim_c6_gate_resolution _).2.1 "true".toList rfl rfl

/-! ### C8 — missing-store edge case -/

/-- C8: when the progress store file does not exist, `read` returns the empty
`Progress` (no header fields, no iterations, no status) and `iteration_count`
returns 0, and a run against such a store enters its loop at iteration 1. -/
theorem claim_c8_missing_store :
    (∀ parseDT, readProgress parseDT none =
      { started := none, plan_path := none, iterations := [], last_status := none }) ∧
    iteration_count none = 0 ∧
    (∀ (plan : List Char) (cfg : Config) (envs : Nat → IterEnv),
      run plan (some cfg) none envs =
        run_loop plan envs cfg.loop_config.max_iterations 1
          { config := cfg, store := none, trace := [] }) := by
  refine ⟨fun _ => rfl, rfl, fun plan cfg envs => ?_⟩
  show run_loop plan envs (cfg.loop_config.max_iterations + 1 - 1) 1 _ = _
  rw [Nat.add_sub_cancel]

/-! ### C9 — the derived count is the marker count -/

/-- C9: appending a record raises the derived iteration count by exactly one
plus the number of `"## Iteration"` occurrences inside the record's summary
text; in particular an append whose summary avoids the marker raises it by
exactly one. -/
theorem claim_c9_count_algebra :
    (∀ (store : Store) (r : IterationResult) (now : DateTimeU),
      iteration_count (log_iteration store r now) =
        iteration_count store + 1 + countOcc patIteration r.summary) ∧
    (∀ (store : Store) (r : IterationResult) (now : DateTimeU),
      countOcc patIteration r.summary = 0 →
      iteration_count (log_iteration store r now) = iteration_count store + 1) := by
  refine ⟨iteration_count_log_iteration, fun store r now h => ?_⟩
  rw [iteration_count_log_iteration, h]

/-- Inversion: the loop body returns `Complete {k}` only with `k = n`, only
when the agent spawned, validation passed, the signal was found, the record
was appended, and the quality-gate evaluation succeeded with a true
aggregate. -/
theorem run_iteration_complete_inv (plan : List Char) (n : Nat) (env : IterEnv) (s : RunState)
    (s2 : RunState) (k : Nat)
    (h : run_iteration plan n env s = .finished s2 (.complete k)) :
    k = n ∧ ∃ aout v gr,
      env.agent = .ok aout ∧ env.validationProc = some v ∧ env.appendOk = true ∧
      run_quality_gates env.gateProc (env.reload.getD s.config).quality_gates = .ok gr ∧
      gr.all_passed = true ∧ v.success = true ∧
      hasSubstr (env.reload.getD s.config).loop_config.completion_signal
        (aout.stdout ++ '\n' :: aout.stderr) = true := by
  revert h
  simp only [run_iteration, run_claude]
  cases hag : env.agent with
  | error msg =>
    intro h
    injection h with h1 h2
    cases h2
  | ok aout =>
    simp only [finishIteration]
    cases hgit : (if (env.reload.getD s.config).git.auto_commit = true
        then runner_git_auto_commit env.git n (env.reload.getD s.config)
        else Except.ok ()) with
    | error e => intro h; cases h
    | ok u =>
      cases hvp : env.validationProc with
      | none => intro h; cases h
      | some v =>
        simp only [run_validation]
        cases happ : env.appendOk with
        | false => intro h; cases h
        | true =>
          simp only [if_true]
          by_cases hcond : (v.success && hasSubstr
              (env.reload.getD s.config).loop_config.completion_signal
              (aout.stdout ++ '\n' :: aout.stderr)) = true
          · rw [if_pos hcond]
            cases hg : run_quality_gates env.gateProc
                (env.reload.getD s.config).quality_gates with
            | error e => intro h; cases h
            | ok gr =>
              simp only []
              cases hap : gr.all_passed with
              | false => intro h; cases h
              | true =>
                intro h
                injection h with h1 h2
                injection h2 with h3
                obtain ⟨hvs, hsig⟩ := Bool.and_eq_true_iff.mp hcond
                refine ⟨h3.symm, aout, v, gr, rfl, rfl, ?_, ?_, ?_, hvs, hsig⟩ <;>
                  first | rfl | trivial
          · rw [if_neg hcond]
            intro h
            cases h

/-- Conversely: with the agent spawned, the commit and validation machinery
error-free, the record appended, validation passed, the signal found, and a
successful gate evaluation whose aggregate is true, the loop body returns
`Complete {n}`. -/
theorem run_iteration_complete_of (plan : List Char) (n : Nat) (env : IterEnv) (s : RunState)
    (v : ProcOutput) (aout : AgentOutput) (gr : QualityGateResult)
    (hag : env.agent = .ok aout)
    (hgit : (if (env.reload.getD s.config).git.auto_commit = true
        then runner_git_auto_commit env.git n (env.reload.getD s.config)
        else Except.ok ()) = .ok ())
    (hv : env.validationProc = some v)
    (happ : env.appendOk = true)
    (hvs : v.success = true)
    (hsig : hasSubstr (env.reload.getD s.config).loop_config.completion_signal
      (aout.stdout ++ '\n' :: aout.stderr) = true)
    (hg : run_quality_gates env.gateProc (env.reload.getD s.config).quality_gates = .ok gr)
    (hap : gr.all_passed = true) :
    ∃ s2, run_iteration plan n env s = .finished s2 (.complete n) := by
  simp only [run_iteration, run_claude, hag, finishIteration, hgit, hv, run_validation, happ,
    if_true]
  rw [if_pos (by rw [hvs, hsig]; rfl), hg]
  simp only [hap, if_true]
  exact ⟨_, rfl⟩

/-! ### C2 — agent-spawn failure semantics -/

/-- C2: an agent the loop cannot spawn at iteration `n` makes the run return
`Error {iterations := n - 1}` with the spawn error text at once — no record is
appended, the trace is untouched; at `run` level the reported count is exactly
the pre-existing record count.  A spawned agent that exits non-zero, by
contrast, changes nothing: the iteration is identical whatever the agent's
exit status was. -/
theorem claim_c2_spawn_failure :
    (∀ (plan : List Char) (envs : Nat → IterEnv) (fuel n : Nat) (s : RunState) (msg : List Char),
      (envs n).agent = .error msg →
      run_loop plan envs (fuel + 1) n s =
        ({ config := (envs n).reload.getD s.config, store := s.store, trace := s.trace },
          .ok (.error (n - 1) msg))) ∧
    (∀ (plan : List Char) (cfg : Config) (store : Store) (envs : Nat → IterEnv) (msg : List Char),
      iteration_count store + 1 ≤ cfg.loop_config.max_iterations →
      (envs (iteration_count store + 1)).agent = .error msg →
      (run plan (some cfg) store envs).2 = .ok (.error (iteration_count store) msg) ∧
      (run plan (some cfg) store envs).1.store = store) ∧
    (∀ (plan : List Char) (n : Nat) (env : IterEnv) (s : RunState) (sout serr : List Char),
      run_iteration plan n { env with agent := .ok ⟨sout, serr, false⟩ } s =
        run_iteration plan n { env with agent := .ok ⟨sout, serr, true⟩ } s) := by
  refine ⟨run_loop_spawn_failure, ?_, fun plan n env s sout serr => rfl⟩
  intro plan cfg store envs msg hle h
  obtain ⟨f, hf⟩ : ∃ f, cfg.loop_config.max_iterations + 1 - (iteration_count store + 1)
      = f + 1 := ⟨cfg.loop_config.max_iterations - (iteration_count store + 1), by omega⟩
  simp only [run, hf]
  rw [run_loop_spawn_failure plan envs f (iteration_count store + 1) _ msg h]
  exact ⟨rfl, rfl⟩

/-- Witness for C2: a spawn failure at iteration 1 of a concrete fresh run
yields `Error {iterations := 0}` and leaves the (missing) store untouched. -/
theorem claim_c2_witness :
    (run "PLAN.md".toList (some cfgW) none (fun _ => envSpawnFail)).2
        = .ok (.error 0 "claude CLI not found".toList) ∧
    (run "PLAN.md".toList (some cfgW) none (fun _ => envSpawnFail)).1.store = none :=
  claim_c2_spawn_failure.2.1 "PLAN.md".toList cfgW none (fun _ => envSpawnFail)
    "claude CLI not found".toList (by decide) rfl

/-! ### C5 — record append (corrected) -/

/-- Counterexample to C5 as stated: at iteration 1 the agent spawns and exits
successfully (`envCommitFail.agent` is `ok`), yet no record is appended for
that iteration — the `git commit` failure aborts the run between the agent
call and the append, leaving the store exactly as it was. -/
theorem claim_c5_counterexample :
    envCommitFail.agent = .ok agentOutW ∧
    (run "PLAN.md".toList (some cfgW) (some []) (fun _ => envCommitFail)).1.store = some [] ∧
    (run "PLAN.md".toList (some cfgW) (some []) (fun _ => envCommitFail)).2 =
      .error (.gitCommitFailed "fatal: unable to write new index file".toList) := by
  exact ⟨rfl, by rfl, by rfl⟩

/-- C5 as amended: in every iteration whose agent invocation succeeded *and*
whose auto-commit, validation-spawn and append steps did not propagate an
error, exactly one record is appended — whatever the validation outcome and
the completion-signal outcome were, and carrying exactly the derived summary.
-/
theorem claim_c5_amended_append (plan : List Char) (n : Nat) (env : IterEnv) (s : RunState)
    (v : ProcOutput) (aout : AgentOutput)
    (hag : env.agent = .ok aout)
    (hgit : (if (env.reload.getD s.config).git.auto_commit = true
        then runner_git_auto_commit env.git n (env.reload.getD s.config)
        else Except.ok ()) = .ok ())
    (hv : env.validationProc = some v)
    (happ : env.appendOk = true) :
    (run_iteration plan n env s).state.store =
      log_iteration s.store
        { iteration := n
          validation_passed := v.success
          promise_found := hasSubstr (env.reload.getD s.config).loop_config.completion_signal
            (aout.stdout ++ '\n' :: aout.stderr)
          summary := deriveSummary v.success
            (hasSubstr (env.reload.getD s.config).loop_config.completion_signal
              (aout.stdout ++ '\n' :: aout.stderr)) }
        env.now := by
  simp only [run_iteration, run_claude, hag, finishIteration, hgit, hv, run_validation, happ,
    if_true]
  by_cases hcond : (v.success && hasSubstr
      (env.reload.getD s.config).loop_config.completion_signal
      (aout.stdout ++ '\n' :: aout.stderr)) = true
  · rw [if_pos hcond]
    cases run_quality_gates env.gateProc (env.reload.getD s.config).quality_gates with
    | error e => rfl
    | ok gr =>
      simp only []
      cases gr.all_passed <;> rfl
  · rw [if_neg hcond]
    rfl

/-- Witness for the amended C5: at a concrete iteration whose validation
failed and whose output lacks the signal, the record is still appended. -/
theorem claim_c5_amended_witness :
    (run_iteration "PLAN.md".toList 1 envW
        { config := cfgW, store := none, trace := [] }).state.store =
      log_iteration none
        { iteration := 1, validation_passed := false, promise_found := false
          summary := deriveSummary false false } nowW :=
  claim_c5_amended_append "PLAN.md".toList 1 envW
    { config := cfgW, store := none, trace := [] }
    { stdout := [], stderr := [], success := false, code := 1 }
    { stdout := [], stderr := "error: build failed".toList, success := false }
    rfl rfl rfl rfl

/-! ### C4 — error propagation (corrected) -/

/-- Counterexample to C4 as stated: at iteration 1 the agent works, but
`git status` exits non-zero — a `ProcessExecutionFailure` of a version-control
command, which the claim says is absorbed — and the run terminates abnormally
with a propagated error instead of a `LoopOutcome`. -/
theorem claim_c4_counterexample :
    envStatusFail.agent = .ok agentOutW ∧
    (run "PLAN.md".toList (some cfgW) none (fun _ => envStatusFail)).2 =
      .error (.gitStatusFailed "fatal: not a git repository".toList) := by
  exact ⟨rfl, by rfl⟩

/-- C4 as amended: non-zero *exit statuses* of the agent, the validation
command and the quality gates are absorbed into the loop (the run always ends
in a `LoopOutcome`), provided the infrastructure itself works: git commands
succeed or are skipped, the validation and gate shells spawn, the progress
file is writable, and every configured gate (initial or reloaded) is
well-formed.  Version-control command failures, gate-configuration errors,
gate or validation spawn failures and store write failures, by contrast,
propagate and abort the run, as the counterexample shows. -/
theorem claim_c4_amended_propagation (plan : List Char) (cfg : Config) (store : Store)
    (envs : Nat → IterEnv)
    (hwf : WellFormedGates cfg)
    (hreload : ∀ m c, (envs m).reload = some c → WellFormedGates c)
    (hok : ∀ m, IterEnvOk (envs m)) :
    ∃ o, (run plan (some cfg) store envs).2 = .ok o := by
  simp only [run]
  exact run_loop_no_fail plan envs hok hreload _ _ _ hwf

/-- Witness for the amended C4: a concrete run whose validation exits 1 and
whose agent exits non-zero every iteration still ends in a `LoopOutcome`. -/
theorem claim_c4_amended_witness :
    ∃ o, (run "PLAN.md".toList (some cfgW) none (fun _ => envW)).2 = .ok o :=
  claim_c4_amended_propagation "PLAN.md".toList cfgW none (fun _ => envW)
    (fun g hg => absurd hg (List.not_mem_nil g))
    (fun m c h => by cases h)
    (fun m => ⟨Or.inl rfl, ⟨_, rfl⟩, fun j => ⟨_, rfl⟩, rfl⟩)

/-! ### C3 — quality-gate gating and aggregation -/

/-- C3: (a) a successful gate evaluation runs every configured gate in
declared order against its own process outcome — no short-circuit — and its
aggregate is the AND of the individual results; (b) when validation failed or
the signal is absent the per-gate process environment is never consulted;
(c) the loop body returns `Complete {n}` exactly when validation passed, the
signal was found, and the gate evaluation succeeded with a true aggregate. -/
theorem claim_c3_gate_evaluation :
    (∀ (proc : Nat → Option ProcOutput) (gates : List QualityGate) (gr : QualityGateResult),
      run_quality_gates proc gates = .ok gr →
      gr.results.length = gates.length ∧
      (∀ j (hj : j < gates.length), ∃ p, proc j = some p ∧
        gr.results[j]? = some ((gates.get ⟨j, hj⟩).name, p.success, p.stdout ++ '\n' :: p.stderr)) ∧
      gr.all_passed = gr.results.all (fun r => r.2.1)) ∧
    (∀ (plan : List Char) (n : Nat) (env : IterEnv) (s : RunState)
      (q : Nat → Option ProcOutput) (v : ProcOutput) (aout : AgentOutput),
      env.agent = .ok aout → env.validationProc = some v →
      (v.success && hasSubstr (env.reload.getD s.config).loop_config.completion_signal
        (aout.stdout ++ '\n' :: aout.stderr)) = false →
      run_iteration plan n { env with gateProc := q } s = run_iteration plan n env s) ∧
    (∀ (plan : List Char) (n : Nat) (env : IterEnv) (s s2 : RunState) (k : Nat),
      run_iteration plan n env s = .finished s2 (.complete k) →
      k = n ∧ ∃ aout v gr,
        env.agent = .ok aout ∧ env.validationProc = some v ∧ env.appendOk = true ∧
        run_quality_gates env.gateProc (env.reload.getD s.config).quality_gates = .ok gr ∧
        gr.all_passed = true ∧ v.success = true ∧
        hasSubstr (env.reload.getD s.config).loop_config.completion_signal
          (aout.stdout ++ '\n' :: aout.stderr) = true) ∧
    (∀ (plan : List Char) (n : Nat) (env : IterEnv) (s : RunState)
      (v : ProcOutput) (aout : AgentOutput) (gr : QualityGateResult),
      env.agent = .ok aout →
      (if (env.reload.getD s.config).git.auto_commit = true
        then runner_git_auto_commit env.git n (env.reload.getD s.config)
        else Except.ok ()) = .ok () →
      env.validationProc = some v → env.appendOk = true →
      v.success = true →
      hasSubstr (env.reload.getD s.config).loop_config.completion_signal
        (aout.stdout ++ '\n' :: aout.stderr) = true →
      run_quality_gates env.gateProc (env.reload.getD s.config).quality_gates = .ok gr →
      gr.all_passed = true →
      ∃ s2, run_iteration plan n env s = .finished s2 (.complete n)) :=
  ⟨run_quality_gates_spec, run_iteration_gates_unused, run_iteration_complete_inv,
    run_iteration_complete_of⟩

/-- Witness for C3: a concrete evaluation in which the first gate fails to
stop the second from running, and whose aggregate is the AND of both. -/
theorem claim_c3_witness :
    grW.results.length = gatesW.length ∧
    grW.all_passed = grW.results.all (fun r => r.2.1) :=
  ⟨(claim_c3_gate_evaluation.1 procW gatesW grW rfl).1,
    (claim_c3_gate_evaluation.1 procW gatesW grW rfl).2.2⟩

/-! ### C1 — resumability -/

/-- C1: a store holding a marker-free header plus `N` appended records has
derived count `N`; a fresh run over it enters its loop at iteration `N + 1`;
and every agent call the run makes carries an iteration number strictly above
`N` (and at most the loaded `max_iterations`) — so no iteration number repeats
across the restart, with the count derived from the content alone. -/
theorem claim_c1_resumability (hdr : List Char) (recs : List (IterationResult × DateTimeU))
    (plan : List Char) (cfg : Config) (envs : Nat → IterEnv)
    (h0 : countOcc patIteration hdr = 0)
    (hs : ∀ rt ∈ recs, countOcc patIteration rt.1.summary = 0) :
    iteration_count (some (hdr ++ recordsText recs)) = recs.length ∧
    run plan (some cfg) (some (hdr ++ recordsText recs)) envs =
      run_loop plan envs (cfg.loop_config.max_iterations + 1 - (recs.length + 1))
        (recs.length + 1)
        { config := cfg, store := some (hdr ++ recordsText recs), trace := [] } ∧
    (∀ e ∈ (run plan (some cfg) (some (hdr ++ recordsText recs)) envs).1.trace,
      ∃ i args, e = .agentCall i args ∧ recs.length + 1 ≤ i ∧
        i ≤ cfg.loop_config.max_iterations) := by
  have hcount : iteration_count (some (hdr ++ recordsText recs)) = recs.length := by
    show countOcc patIteration (hdr ++ recordsText recs) = recs.length
    rw [countOcc_header_recordsText hdr recs h0, countOcc_recordsText recs hs]
  refine ⟨hcount, ?_, ?_⟩
  · simp only [run, hcount]
  · intro e he
    simp only [run] at he
    rcases run_loop_trace_mem plan envs _ _ _ e he with h1 | ⟨i, args, he2, hlo, hhi⟩
    · simp at h1
    · rw [hcount] at hlo hhi
      exact ⟨i, args, he2, hlo, by omega⟩

/-- Witness for C1: a concrete store built from a real header and one record
has derived count 1. -/
theorem claim_c1_witness :
    iteration_count (some (initHeader nowW "PLAN.md".toList ++ recordsText
      [({ iteration := 1, validation_passed := true, promise_found := false
          summary := "Fixed a bug".toList }, nowW)])) = 1 :=
  (claim_c1_resumability (initHeader nowW "PLAN.md".toList)
    [({ iteration := 1, validation_passed := true, promise_found := false
        summary := "Fixed a bug".toList }, nowW)]
    "PLAN.md".toList cfgW (fun _ => envW) (by decide) (by decide)).1

/-! ### C10 — the loop bound is fixed at run start -/

/-- C10: every agent call of a run lies between the derived start and the
`max_iterations` of the *initially loaded* config, whatever later reloads say;
and when the loop exhausts its range, the `MaxIterations` outcome reports the
`max_iterations` of the config in memory after the last reload — not the
initial bound — while the executed iterations cover exactly the initial
range. -/
theorem claim_c10_loop_bound (plan : List Char) (cfg : Config) (store : Store)
    (envs : Nat → IterEnv) :
    (∀ e ∈ (run plan (some cfg) store envs).1.trace,
      ∃ i args, e = .agentCall i args ∧ iteration_count store + 1 ≤ i ∧
        i ≤ cfg.loop_config.max_iterations) ∧
    (∀ k, (run plan (some cfg) store envs).2 = .ok (.maxIterations k) →
      k = (run plan (some cfg) store envs).1.config.loop_config.max_iterations ∧
      ∀ i, iteration_count store + 1 ≤ i → i ≤ cfg.loop_config.max_iterations →
        ∃ args, Event.agentCall i args ∈ (run plan (some cfg) store envs).1.trace) := by
  constructor
  · intro e he
    simp only [run] at he
    rcases run_loop_trace_mem plan envs _ _ _ e he with h1 | ⟨i, args, he2, hlo, hhi⟩
    · simp at h1
    · exact ⟨i, args, he2, hlo, by omega⟩
  · intro k hk
    simp only [run] at hk ⊢
    obtain ⟨h1, h2⟩ := run_loop_max_inv plan envs _ _ _ k hk
    refine ⟨h1, ?_⟩
    intro i hlo hhi
    exact h2 i hlo (by omega)

/-- Witness for C10: a concrete three-iteration run that never completes ends
in `MaxIterations` and its trace contains the agent call of iteration 1. -/
theorem claim_c10_witness :
    ∃ args, Event.agentCall 1 args ∈
      (run "PLAN.md".toList (some cfgW) none (fun _ => envW)).1.trace :=
  (claim_c10_loop_bound "PLAN.md".toList cfgW none (fun _ => envW)).2 3 (by rfl)
    |>.2 1 (by decide) (by decide)

/-! ### C7 — timeout noninterference -/

/-- C7: two runs whose initial configs differ only in
`iteration_timeout_minutes`, and whose per-iteration config reloads likewise
differ only in that field, have identical traces (hence identical agent
invocations and arguments), identical final stores, and identical results;
the field is read into an unused local and enforced nowhere. -/
theorem claim_c7_timeout_noninterference (plan : List Char) (cfg : Config) (store : Store)
    (envs : Nat → IterEnv) (t : Nat) (tf : Nat → Nat) :
    (run plan (some (setTimeout cfg t)) store (mapEnvsTimeout envs tf)).1.trace
        = (run plan (some cfg) store envs).1.trace ∧
    (run plan (some (setTimeout cfg t)) store (mapEnvsTimeout envs tf)).1.store
        = (run plan (some cfg) store envs).1.store ∧
    (run plan (some (setTimeout cfg t)) store (mapEnvsTimeout envs tf)).2
        = (run plan (some cfg) store envs).2 := by
  obtain ⟨u', hu⟩ := run_loop_timeout plan envs tf
    (cfg.loop_config.max_iterations + 1 - (iteration_count store + 1))
    (iteration_count store + 1) { config := cfg, store := store, trace := [] } t
  have hrun : run plan (some (setTimeout cfg t)) store (mapEnvsTimeout envs tf) =
      ((run_loop plan envs (cfg.loop_config.max_iterations + 1 - (iteration_count store + 1))
          (iteration_count store + 1) { config := cfg, store := store, trace := [] }).1.mapTimeout u',
        (run_loop plan envs (cfg.loop_config.max_iterations + 1 - (iteration_count store + 1))
          (iteration_count store + 1) { config := cfg, store := store, trace := [] }).2) := by
    simp only [run]
    exact hu
  rw [hrun]
  simp [run, RunState.mapTimeout]

/-- Witness for C9 at a concrete store and record. -/
theorem claim_c9_witness :
    iteration_count (log_iteration (some "# RWL Progress Log\n".toList)
        { iteration := 1, validation_passed := true, promise_found := false
          summary := "Fixed a bug".toList } nowW)
      = iteration_count (some "# RWL Progress Log\n".toList) + 1 :=
  claim_c9_count_algebra.2 (some "# RWL Progress Log\n".toList)
    { iteration := 1, validation_passed := true, promise_found := false
      summary := "Fixed a bug".toList } nowW (by decide)

end RWL
